import Mathlib

/-!
# USR_VS_UTILITIES: EmbedAllAndGenerateSMIMultiThread.cpp

A shallow embedding of `MoleculesProcess::usrcat_features`, `MoleculesProcess::process`
and the chunk scheduler of `main`, followed by theorems about them.

Conventions of the embedding

* `float`/`double` arithmetic is exact arithmetic in a linearly ordered field `F`;
  `sqrt` and `cbrt` (from libm) are parameters of the definitions.
* `size_t` values are natural numbers; every product and sum formed by the scheduler is
  bounded by the number of files, so no wrap-around modulo `2 ^ 64` occurs.
* Out-of-bounds accesses of `std::vector` / `std::array` are undefined behaviour in the
  source and `none` in the embedding.
* `std::string` is `List Char`; `std::string::npos` is `2 ^ 64 - 1`.
-/

namespace USRCAT

/-! ## Chunk scheduler (`main`, lines 385-394) -/

/-- The constant `num_threads` of `main`. -/
def num_threads : Nat := 30

/-- The local `chunk_size` of `main`: `(num_files - start) / num_threads` with `start = 0`. -/
def chunk_size (num_files : Nat) : Nat := (num_files - 0) / num_threads

/-- The local `start_chunk` of iteration `i`. -/
def start_chunk (num_files i : Nat) : Nat := chunk_size num_files * i

/-- The local `end_chunk` of iteration `i`. -/
def end_chunk (num_files i : Nat) : Nat := chunk_size num_files * i + chunk_size num_files

/-- The ranges handed to `MoleculesProcess::process`, in the order of the `for` loop. -/
def chunks (num_files : Nat) : List (Nat × Nat) :=
  (List.range num_threads).map (fun i => (start_chunk num_files i, end_chunk num_files i))

/-- Number of chunks whose half-open range `[start_chunk, end_chunk)` contains `idx`. -/
def cover_count (num_files idx : Nat) : Nat :=
  ((chunks num_files).filter (fun c => decide (c.1 ≤ idx ∧ idx < c.2))).length

/-! ## Geometry (`dist2`, reference points of `usrcat_features`) -/

/-- The `RDGeom::Point3D` of the source: three coordinates. -/
structure Point3D (F : Type) where
  x : F
  y : F
  z : F
deriving DecidableEq

section Geometry

variable {F : Type} [LinearOrderedField F]

/-- The point `(0, 0, 0)` every entry of `references` is reset to (lines 239-242). -/
def origin : Point3D F := ⟨0, 0, 0⟩

/-- The `operator+=` of `Point3D`, as used in `ctd += a`. -/
def Point3D.add (p q : Point3D F) : Point3D F := ⟨p.x + q.x, p.y + q.y, p.z + q.z⟩

/-- The `operator/=` of `Point3D`, as used in `ctd /= num_points`. -/
def Point3D.div (p : Point3D F) (s : F) : Point3D F := ⟨p.x / s, p.y / s, p.z / s⟩

/-- The helper `MoleculesProcess::dist2`: squared Euclidean distance. -/
def dist2 (p0 p1 : Point3D F) : F :=
  let d0 := p0.x - p1.x
  let d1 := p0.y - p1.y
  let d2 := p0.z - p1.z
  d0 * d0 + d1 * d1 + d2 * d2

/-- The value of `numeric_limits<float>::max()`, namely `(2 ^ 24 - 1) * 2 ^ 104`. -/
def FLT_MAX : F := (2 ^ 24 - 1) * 2 ^ 104

/-- The value of `numeric_limits<float>::lowest()`. -/
def FLT_LOWEST : F := -FLT_MAX

/-- Lines 247-252: sum the positions of the atoms of `subset0`, then divide by `num_points`
(the heavy-atom count of the molecule, not `subset0.size()`). The division is exact field
division; for `num_points = 0` the source produces an infinity or a NaN, which the embedding
does not represent. -/
def centroid (num_points : Nat) (conformer : Nat → Point3D F) (subset0 : List Nat) :
    Point3D F :=
  (subset0.foldl (fun ctd sub => ctd.add (conformer sub)) origin).div (num_points : F)

/-- The variables updated by the loop of lines 256-270. -/
structure Extremes (F : Type) where
  cst : Point3D F
  cst_dist : F
  fct : Point3D F
  fct_dist : F

/-- One iteration of the loop of lines 256-270. -/
def extremes_step (conformer : Nat → Point3D F) (ctd : Point3D F) (s : Extremes F)
    (sub : Nat) : Extremes F :=
  let a := conformer sub
  let this_dist := dist2 a ctd
  let s1 : Extremes F :=
    if this_dist < s.cst_dist then { s with cst := a, cst_dist := this_dist } else s
  if this_dist > s1.fct_dist then { s1 with fct := a, fct_dist := this_dist } else s1

/-- The loop of lines 256-270, started from the values of lines 239-255. -/
def extremes (conformer : Nat → Point3D F) (ctd : Point3D F) (subset0 : List Nat) :
    Extremes F :=
  subset0.foldl (extremes_step conformer ctd) ⟨origin, FLT_MAX, origin, FLT_LOWEST⟩

/-- One iteration of the loop of lines 271-280; the state is `(ftf, ftf_dist)`. -/
def ftf_step (conformer : Nat → Point3D F) (fct : Point3D F) (s : Point3D F × F)
    (sub : Nat) : Point3D F × F :=
  let a := conformer sub
  let this_dist := dist2 a fct
  if this_dist > s.2 then (a, this_dist) else s

/-- The loop of lines 271-280. -/
def farthest_from (conformer : Nat → Point3D F) (fct : Point3D F) (subset0 : List Nat) :
    Point3D F × F :=
  subset0.foldl (ftf_step conformer fct) (origin, FLT_LOWEST)

/-- The array `references` after line 280: `[ctd, cst, fct, ftf]`. -/
def references (num_points : Nat) (conformer : Nat → Point3D F) (subset0 : List Nat) :
    List (Point3D F) :=
  let ctd := centroid num_points conformer subset0
  let e := extremes conformer ctd subset0
  let ftf := (farthest_from conformer e.fct subset0).1
  [ctd, e.cst, e.fct, ftf]

/-! ## Distance table and moments (`usrcat_features`, lines 281-345) -/

/-- Line 289 for one `p`: `distp[subset0[p]] = sqrt(dist2(getAtomPos(subset0[p]), reference))`.
Reading `subset0[p]` past the end of `subset0`, or writing past the end of `distp`, is
undefined behaviour: `none`. -/
def fill_step (sqrt : F → F) (conformer : Nat → Point3D F) (subset0 : List Nat)
    (reference : Point3D F) (distp : List F) (p : Nat) : Option (List F) :=
  match subset0[p]? with
  | none => none
  | some sub =>
    if sub < distp.length then
      some (distp.set sub (sqrt (dist2 (conformer sub) reference)))
    else none

/-- Lines 285-290 for one reference point: `distp.resize(num_points)` on an empty vector
gives `num_points` zeros, then entry `subset0[p]` is written for every `p < num_points`. -/
def fill_distp (sqrt : F → F) (num_points : Nat) (conformer : Nat → Point3D F)
    (subset0 : List Nat) (reference : Point3D F) : Option (List F) :=
  (List.range num_points).foldlM (fill_step sqrt conformer subset0 reference)
    (List.replicate num_points 0)

/-- Lines 282-291: the table `dista`, one row per reference point. -/
def precompute (sqrt : F → F) (num_points : Nat) (conformer : Nat → Point3D F)
    (subset0 : List Nat) (refs : List (Point3D F)) : Option (List (List F)) :=
  refs.mapM (fill_distp sqrt num_points conformer subset0)

/-- Lines 301-305: `dists[a] = distp[subset[a]]`; an index past the end of `distp` is
undefined behaviour: `none`. -/
def gather (distp : List F) : List Nat → Option (List F)
  | [] => some []
  | a :: rest =>
    match distp[a]? with
    | none => none
    | some d =>
      match gather distp rest with
      | none => none
      | some ds => some (d :: ds)

/-- Lines 307-338: the array `m` of the three moments of `dists`. -/
def moments (sqrt cbrt : F → F) (dists : List F) : List F :=
  let n := dists.length
  if n > 2 then
    let v : F := 1.0 / (n : F)
    let m0 := dists.foldl (fun m0 d => m0 + d) 0
    let m0 := m0 * v
    let m1 := dists.foldl (fun m1 dj => let d := dj - m0; m1 + d * d) 0
    let m1 := sqrt (m1 * v)
    let m2 := dists.foldl (fun m2 dj => let d := dj - m0; m2 + d * d * d) 0
    let m2 := cbrt (m2 * v)
    [m0, m1, m2]
  else if n = 2 then
    [0.5 * (dists.getD 0 0 + dists.getD 1 0), 0.5 * |dists.getD 0 0 - dists.getD 1 0|, 0]
  else if n = 1 then
    [dists.getD 0 0, 0, 0]
  else
    [0, 0, 0]

/-- Lines 339-342: `features[qo++] = e` for every `e` of `m`; the state is
`(features, qo)`. A write past the end of `features` is `none`. -/
def write_moments (st : List F × Nat) (m : List F) : Option (List F × Nat) :=
  m.foldlM
    (fun s e => if s.2 < s.1.length then some (s.1.set s.2 e, s.2 + 1) else none)
    st

/-- The body of the inner loop (lines 297-343) for subset `subset` and reference `ref`. -/
def ref_step (sqrt cbrt : F → F) (dista : List (List F)) (subset : List Nat)
    (st : List F × Nat) (ref : Nat) : Option (List F × Nat) :=
  match dista[ref]? with
  | none => none
  | some distp =>
    match gather distp subset with
    | none => none
    | some dists => write_moments st (moments sqrt cbrt dists)

/-- The constant `num_references`. -/
def num_references : Nat := 4

/-- The body of the outer loop (lines 294-344) for one subset. -/
def subset_step (sqrt cbrt : F → F) (dista : List (List F)) (st : List F × Nat)
    (subset : List Nat) : Option (List F × Nat) :=
  (List.range num_references).foldlM (ref_step sqrt cbrt dista subset) st

/-- Lines 293-345: the loop over the five subsets, starting with `qo = 0` and the
uninitialised array `features`. -/
def features_loop (sqrt cbrt : F → F) (dista : List (List F)) (subsets : Fin 5 → List Nat)
    (uninit : Fin 60 → F) : Option (List F) :=
  match (List.ofFn subsets).foldlM (subset_step sqrt cbrt dista) (List.ofFn uninit, 0) with
  | none => none
  | some st => some st.1

/-- The method `MoleculesProcess::usrcat_features`. The collaborators are inputs:
`num_points` is `mol.getNumHeavyAtoms()`, `conformer` is `mol.getConformer(index).getAtomPos`,
`subsets k` is the list of atom indices `SubstructMatch` returns for pattern `k`, and
`uninit` is the content of the local array `features` before it is written. -/
def usrcat_features (sqrt cbrt : F → F) (uninit : Fin 60 → F) (num_points : Nat)
    (conformer : Nat → Point3D F) (subsets : Fin 5 → List Nat) : Option (List F) :=
  let subset0 := subsets 0
  let refs := references num_points conformer subset0
  match precompute sqrt num_points conformer subset0 refs with
  | none => none
  | some dista => features_loop sqrt cbrt dista subsets uninit

end Geometry

/-! ## Record extraction and pipeline (`process`, lines 78-189)

Strings are lists of characters and a file is the list of its lines. The RDKit calls are
a parameter `embed`; the seven output streams and the input stream are explicit state.
The mutex is not modelled: the calls of `process` are taken one after the other. -/

/-- The constant `std::string::npos`. -/
def npos : Nat := 2 ^ 64 - 1

/-- The call `s.find(pat)` for a string literal `pat`: the position of the first occurrence
of `pat` in `s`, or `npos`. -/
def find (pat : List Char) : List Char → Nat
  | [] => if pat.isEmpty then 0 else npos
  | c :: t =>
    if pat.isPrefixOf (c :: t) then 0
    else
      let r := find pat t
      if r = npos then npos else r + 1

/-- The call `s.find(c)` for a character `c`. -/
def find_char (c : Char) : List Char → Nat
  | [] => npos
  | d :: t =>
    if d = c then 0
    else
      let r := find_char c t
      if r = npos then npos else r + 1

/-- Lines 97-98 and 103-104: `pos = line.find(':')` followed by `line.substr(pos + 1)`.
When there is no colon, `pos` is `-1` after the conversion to `int` and the whole line is
returned. -/
def after_colon (line : List Char) : List Char :=
  let pos := find_char ':' line
  if pos = npos then line else line.drop (pos + 1)

/-- The helper `MoleculesProcess::stripWhiteSpaces`: erase every space character. -/
def stripWhiteSpaces (str : List Char) : List Char :=
  str.filter (fun c => c != ' ')

/-- Lines 95-100: the value of `compound` after the line `line` has been looked at. -/
def read_compound (line compound : List Char) : List Char :=
  if find "Compound:".toList line ≠ npos then stripWhiteSpaces (after_colon line)
  else compound

/-- Lines 103-113: the value of `smiles` for a SMILES line `line`; `next_line` is what the
`getline` of line 106 delivers (`none` when it fails). In the test of line 108 the `!`
applies to the position returned by `find`, giving `1` or `0`, and that number is
compared with `npos`. -/
def read_smiles (line : List Char) (next_line : Option (List Char)) : List Char :=
  let smiles := stripWhiteSpaces (after_colon line)
  match next_line with
  | none => smiles
  | some next_line =>
    let negated : Nat := if find "REMARK".toList next_line = 0 then 1 else 0
    if negated ≠ npos then smiles ++ next_line else smiles

/-- The test of line 114. -/
def blacklisted (smiles : List Char) : Bool :=
  find_char 'q' smiles != npos || find_char 'r' smiles != npos || find_char 's' smiles != npos

/-- An output stream opened with `ios::app` together with the file it appends to: whether
it is open, whether its state is good (neither `failbit` nor `badbit`), and the entries
written to the file so far. -/
structure OStream (α : Type) where
  is_open : Bool
  good : Bool
  file : List α
deriving DecidableEq

/-- The call `open(path, ios::app)`: fails (sets `failbit`) on a stream that is already
open, otherwise opens the file and clears the state. -/
def OStream.open {α : Type} (s : OStream α) : OStream α :=
  if s.is_open then { s with good := false } else { s with is_open := true, good := true }

/-- One formatted or binary write of the entry `x`: nothing happens on a stream that is
not good, a write to a closed stream fails (sets `badbit`), otherwise `x` is appended. -/
def OStream.write {α : Type} (s : OStream α) (x : α) : OStream α :=
  if s.good then
    if s.is_open then { s with file := s.file ++ [x] } else { s with good := false }
  else s

/-- The call `close()`: fails (sets `failbit`) on a stream that is not open. -/
def OStream.close {α : Type} (s : OStream α) : OStream α :=
  if s.is_open then { s with is_open := false } else { s with good := false }

/-- The input stream `pdbqt_ifs`: whether it is open, whether its state is good, and the
lines of its file that have not been read. -/
structure IStream where
  is_open : Bool
  good : Bool
  unread : List (List Char)
deriving DecidableEq

/-- The call `pdbqt_ifs.open(path)` where `file` is the content at `path`: fails (sets
`failbit`) on a stream that is already open. -/
def IStream.open (s : IStream) (file : List (List Char)) : IStream :=
  if s.is_open then { s with good := false } else ⟨true, true, file⟩

/-- The members of `MoleculesProcess` that `process` changes. An entry of `m_Conf_file`
is what one `writer.write(mol, confId)` appends (the molecule, named `compound`, and the
conformer id); an entry of `m_rfprop` / `m_riprop` is the record of 4 floats / 5 integers
computed from the molecule; an entry of `m_usrcatf64` is `usrcat_features(mol, i)`, kept
as the pair of its arguments; an entry of a text stream is one line. -/
structure Worker (Mol : Type) where
  m_Conf_file : OStream (List Char × Mol × Nat)
  m_Smi_file : OStream (List Char)
  m_Smiles_file : OStream (List Char)
  m_Id_file : OStream (List Char)
  m_rfprop : OStream Mol
  m_riprop : OStream Mol
  m_usrcatf64 : OStream (Mol × Nat)
  pdbqt_ifs : IStream
deriving DecidableEq

/-- A freshly constructed `MoleculesProcess` whose output files do not exist yet. -/
def Worker.fresh {Mol : Type} : Worker Mol :=
  ⟨⟨false, true, []⟩, ⟨false, true, []⟩, ⟨false, true, []⟩, ⟨false, true, []⟩,
   ⟨false, true, []⟩, ⟨false, true, []⟩, ⟨false, true, []⟩, ⟨false, true, []⟩⟩

/-- What lines 123-127 (`SmilesToMol`, `addHs`, `setProp`, `EmbedMultipleConfs`) and the
descriptor calls of lines 132-142 do for one SMILES string: a `runtime_error` is thrown,
or the molecule `mol` is built and `confIds` is returned. -/
inductive Embedding (Mol : Type) where
  | raised : Embedding Mol
  | confs (mol : Mol) (confIds : List Nat) : Embedding Mol

/-- How the body of the `while` loop is left: the loop goes on, or `break`. -/
inductive Flow (σ : Type) where
  | next (s : σ) : Flow σ
  | brk (s : σ) : Flow σ

/-- Lines 132-178: the writes for a record with four conformers. -/
def emit {Mol : Type} (w : Worker Mol) (compound smiles : List Char) (mol : Mol)
    (confIds : List Nat) : Worker Mol :=
  let rf := (w.m_rfprop.open).write mol
  let ri := (w.m_riprop.open).write mol
  let id := (w.m_Id_file.open).write compound
  let sm := (w.m_Smiles_file.open).write smiles
  let smi := (w.m_Smi_file.open).write (compound ++ Char.ofNat 9 :: smiles)
  let us := w.m_usrcatf64.open
  let conf := confIds.foldl (fun s confId => s.write (compound, mol, confId)) w.m_Conf_file
  let us := (List.range 4).foldl (fun s i => s.write (mol, i)) us
  { w with
    m_Id_file := id.close, m_Smiles_file := sm.close, m_Smi_file := smi.close,
    m_Conf_file := conf.close, m_riprop := ri.close, m_rfprop := rf.close,
    m_usrcatf64 := us.close }

/-- Lines 114-185: what happens to a record once `compound` and `smiles` are known. -/
def record {Mol : Type} (embed : List Char → Embedding Mol) (compound : List Char)
    (w : Worker Mol) (smiles : List Char) : Flow (Worker Mol) :=
  if blacklisted smiles then Flow.brk w
  else
    match embed smiles with
    | Embedding.raised => Flow.brk w
    | Embedding.confs mol confIds =>
      if confIds.isEmpty then Flow.brk w
      else if confIds.length = 4 then Flow.next (emit w compound smiles mol confIds)
      else Flow.next w

/-- The `while (getline(pdbqt_ifs, line))` loop of lines 93-187 on the unread lines of a
good stream. The state is the local `compound` and the worker; the result also gives the
lines left unread and whether the stream is still good (it is not once a `getline` has
failed). -/
def scan {Mol : Type} (embed : List Char → Embedding Mol) :
    List (List Char) → List Char × Worker Mol →
      (List Char × Worker Mol) × List (List Char) × Bool
  | [], st => (st, [], false)
  | line :: rest, st =>
    let compound := read_compound line st.1
    if find "SMILES:".toList line ≠ npos then
      match rest with
      | [] =>
        match record embed compound st.2 (read_smiles line none) with
        | Flow.brk w => ((compound, w), [], false)
        | Flow.next w => ((compound, w), [], false)
      | next_line :: rest2 =>
        match record embed compound st.2 (read_smiles line (some next_line)) with
        | Flow.brk w => ((compound, w), rest2, true)
        | Flow.next w => scan embed rest2 (compound, w)
    else scan embed rest (compound, st.2)

/-- Lines 92-187 for one file: `pdbqt_ifs.open`, then the `while` loop. The stream is
never closed. -/
def process_file {Mol : Type} (embed : List Char → Embedding Mol)
    (st : List Char × Worker Mol) (file : List (List Char)) : List Char × Worker Mol :=
  let ifs := st.2.pdbqt_ifs.open file
  if ifs.good then
    let r := scan embed ifs.unread (st.1, st.2)
    (r.1.1, { r.1.2 with pdbqt_ifs := ⟨true, r.2.2, r.2.1⟩ })
  else (st.1, { st.2 with pdbqt_ifs := ifs })

/-- The method `MoleculesProcess::process`: `m_Conf_file.open`, then the `for` loop over
`counter` in `[start_chunk, end_chunk)`. An index past the end of `pdbqts_vector` is
undefined behaviour: `none`. The `SDWriter` constructor throws only on a stream with
`badbit` set, which cannot be the case right after `open`. -/
def process {Mol : Type} (embed : List Char → Embedding Mol) (start_chunk end_chunk : Nat)
    (pdbqts_vector : List (List (List Char))) (w : Worker Mol) : Option (Worker Mol) :=
  let w1 : Worker Mol := { w with m_Conf_file := w.m_Conf_file.open }
  match (List.range' start_chunk (end_chunk - start_chunk)).foldlM
      (fun st counter =>
        match pdbqts_vector[counter]? with
        | none => none
        | some file => some (process_file embed st file))
      (([] : List Char), w1) with
  | none => none
  | some st => some st.2

/-- The result of a `Flow`: the state with which the loop body is left. -/
def Flow.state {σ : Type} : Flow σ → σ
  | Flow.next s => s
  | Flow.brk s => s

/-- The function `main`, lines 350-398. The inputs are the argument count `argc`, the
`.pdbqt` files the directory iteration finds (`pdbqts_vector`) and the state `worker` of
the `MoleculesProcess` object with its output files. The result is the exit code, the
chunk ranges of the workers that were started (in the order of the `for` loop) and the
final state of the object. There is no test on the number of files. The workers are run
one after the other in the order in which they are started; `main` has no `return` after
the usage test, so the exit code is `0`. -/
def main {Mol : Type} (argc : Nat) (embed : List Char → Embedding Mol)
    (pdbqts_vector : List (List (List Char))) (worker : Worker Mol) :
    Nat × List (Nat × Nat) × Option (Worker Mol) :=
  if argc ≠ 5 then (1, [], some worker)
  else
    let started := chunks pdbqts_vector.length
    (0, started,
      started.foldlM (fun w c => process embed c.1 c.2 pdbqts_vector w) worker)

/-! ## Specification-side notions -/

section SpecSide

variable {F : Type} [LinearOrderedField F]

/-- The arithmetic mean of the positions of the atoms listed in `subset0`, coordinate by
coordinate: the centroid in the words of the specification. -/
def mean_position (conformer : Nat → Point3D F) (subset0 : List Nat) : Point3D F :=
  ⟨(subset0.map (fun a => (conformer a).x)).sum / (subset0.length : F),
   (subset0.map (fun a => (conformer a).y)).sum / (subset0.length : F),
   (subset0.map (fun a => (conformer a).z)).sum / (subset0.length : F)⟩

/-- The coordinate sums of the positions of the atoms listed in `subset0`. -/
def sum_position (conformer : Nat → Point3D F) (subset0 : List Nat) : Point3D F :=
  ⟨(subset0.map (fun a => (conformer a).x)).sum,
   (subset0.map (fun a => (conformer a).y)).sum,
   (subset0.map (fun a => (conformer a).z)).sum⟩

/-- The atom `a` is the first entry of `l` (in list order) whose key is minimal: every
entry before it has a strictly larger key, every entry after it a key at least as large. -/
def first_minimiser (key : Nat → F) (l : List Nat) (a : Nat) : Prop :=
  ∃ pre post, l = pre ++ a :: post ∧
    (∀ b ∈ pre, key a < key b) ∧ (∀ b ∈ post, key a ≤ key b)

/-- The atom `a` is the first entry of `l` (in list order) whose key is maximal: every
entry before it has a strictly smaller key, every entry after it a key at most as large. -/
def first_maximiser (key : Nat → F) (l : List Nat) (a : Nat) : Prop :=
  ∃ pre post, l = pre ++ a :: post ∧
    (∀ b ∈ pre, key b < key a) ∧ (∀ b ∈ post, key b ≤ key a)

/-- Entry `i` of the output as the layout prescribes it: with `k = i / 12` the subset,
`r = (i / 3) % 4` the reference point and `m = i % 3` the moment, it is moment `m` of the
distances looked up in row `r` of the table for the atoms of subset `k`. -/
def expected_entry (sqrt cbrt : F → F) (dista : List (List F)) (subs : List (List Nat))
    (i : Nat) : Option F :=
  (moments sqrt cbrt
    ((subs.getD (i / 12) []).map (fun a => (dista.getD ((i / 3) % 4) []).getD a 0)))[i % 3]?

/-- The Euclidean distance between two points, with `sqrt` the square root. -/
def euclidean_distance (sqrt : F → F) (p q : Point3D F) : F :=
  sqrt ((p.x - q.x) ^ 2 + (p.y - q.y) ^ 2 + (p.z - q.z) ^ 2)

/-- The general moment formulas in the words of the specification: the arithmetic mean,
the square root of the mean squared deviation from the mean (population variance), and
the cube root of the mean cubed deviation from the mean. -/
def general_moments (sqrt cbrt : F → F) (dists : List F) : List F :=
  let mean := dists.sum / (dists.length : F)
  [mean,
   sqrt ((dists.map (fun d => (d - mean) ^ 2)).sum / (dists.length : F)),
   cbrt ((dists.map (fun d => (d - mean) ^ 3)).sum / (dists.length : F))]

/-- The conformer with the vector `t` added to every atom position. -/
def translate (t : Point3D F) (conformer : Nat → Point3D F) : Nat → Point3D F :=
  fun a => (conformer a).add t

/-- A scan that keeps the first element whose key strictly exceeds every key before it:
the common shape of the three selection loops of lines 256-280. -/
def best_step {α P β : Type} [LinearOrder β] (key : α → β) (val : α → P) (s : P × β)
    (a : α) : P × β :=
  if s.2 < key a then (val a, key a) else s

end SpecSide

/-! ## Auxiliary lemmas -/

section Lemmas

variable {F : Type} [LinearOrderedField F]

theorem foldl_add_map {α : Type} (g : α → F) (l : List α) (init : F) :
    l.foldl (fun acc d => acc + g d) init = init + (l.map g).sum := by
  induction l generalizing init with
  | nil => simp
  | cons a t ih => simp [ih, add_assoc]

theorem foldl_point_add (conformer : Nat → Point3D F) (l : List Nat) (p : Point3D F) :
    l.foldl (fun ctd sub => ctd.add (conformer sub)) p
      = p.add (sum_position conformer l) := by
  induction l generalizing p with
  | nil => simp [sum_position, Point3D.add]
  | cons a t ih =>
    simp only [List.foldl_cons, ih]
    simp [sum_position, Point3D.add, add_assoc]

theorem centroid_eq (num_points : Nat) (conformer : Nat → Point3D F) (subset0 : List Nat) :
    centroid num_points conformer subset0
      = (sum_position conformer subset0).div (num_points : F) := by
  unfold centroid
  rw [foldl_point_add]
  simp [origin, Point3D.add, Point3D.div]

theorem dist2_nonneg (p q : Point3D F) : 0 ≤ dist2 p q := by
  unfold dist2
  have h0 := mul_self_nonneg (p.x - q.x)
  have h1 := mul_self_nonneg (p.y - q.y)
  have h2 := mul_self_nonneg (p.z - q.z)
  simp only []
  linarith

theorem FLT_MAX_pos : (0 : F) < FLT_MAX := by
  unfold FLT_MAX
  norm_num

theorem moments_length (sqrt cbrt : F → F) (dists : List F) :
    (moments sqrt cbrt dists).length = 3 := by
  unfold moments
  simp only []
  split_ifs <;> rfl

theorem foldl_best_spec {α P β : Type} [LinearOrder β] (key : α → β) (val : α → P)
    (l : List α) (s : P × β) :
    (l.foldl (best_step key val) s = s ∧ ∀ a ∈ l, key a ≤ s.2) ∨
    (∃ pre a post, l = pre ++ a :: post ∧
      l.foldl (best_step key val) s = (val a, key a) ∧ s.2 < key a ∧
      (∀ b ∈ pre, key b < key a) ∧ (∀ b ∈ post, key b ≤ key a)) := by
  induction l generalizing s with
  | nil => left; simp
  | cons x t ih =>
    rw [List.foldl_cons]
    have hmono : s.2 ≤ (best_step key val s x).2 ∧ key x ≤ (best_step key val s x).2 := by
      unfold best_step
      split_ifs with h
      · exact ⟨le_of_lt h, le_refl _⟩
      · exact ⟨le_refl _, not_lt.mp h⟩
    rcases ih (best_step key val s x) with ⟨hr, hall⟩ | ⟨pre, a, post, hl, hr, hlt, hpre, hpost⟩
    · by_cases hx : s.2 < key x
      · right
        have hs : best_step key val s x = (val x, key x) := by simp [best_step, hx]
        refine ⟨[], x, t, rfl, ?_, hx, by simp, ?_⟩
        · rw [hr, hs]
        · intro b hb
          have := hall b hb
          rw [hs] at this
          exact this
      · left
        have hs : best_step key val s x = s := by simp [best_step, hx]
        rw [hs] at hr hall ⊢
        refine ⟨hr, ?_⟩
        intro b hb
        rcases List.mem_cons.mp hb with rfl | hb
        · exact not_lt.mp hx
        · exact hall b hb
    · right
      refine ⟨x :: pre, a, post, by rw [hl]; rfl, hr, lt_of_le_of_lt hmono.1 hlt, ?_, hpost⟩
      intro b hb
      rcases List.mem_cons.mp hb with rfl | hb
      · exact lt_of_le_of_lt hmono.2 hlt
      · exact hpre b hb

theorem extremes_fct_fold (conformer : Nat → Point3D F) (ctd : Point3D F) (l : List Nat)
    (s : Extremes F) :
    ((l.foldl (extremes_step conformer ctd) s).fct,
      (l.foldl (extremes_step conformer ctd) s).fct_dist)
      = l.foldl (best_step (fun a => dist2 (conformer a) ctd) conformer)
          (s.fct, s.fct_dist) := by
  induction l generalizing s with
  | nil => rfl
  | cons x t ih =>
    rw [List.foldl_cons, List.foldl_cons, ih]
    congr 1
    unfold extremes_step best_step
    simp only [gt_iff_lt]
    split_ifs <;> rfl

theorem extremes_cst_fold (conformer : Nat → Point3D F) (ctd : Point3D F) (l : List Nat)
    (s : Extremes F) :
    ((l.foldl (extremes_step conformer ctd) s).cst,
      OrderDual.toDual (l.foldl (extremes_step conformer ctd) s).cst_dist)
      = l.foldl (best_step (fun a => OrderDual.toDual (dist2 (conformer a) ctd)) conformer)
          (s.cst, OrderDual.toDual s.cst_dist) := by
  induction l generalizing s with
  | nil => rfl
  | cons x t ih =>
    rw [List.foldl_cons, List.foldl_cons, ih]
    congr 1
    unfold extremes_step best_step
    simp only [gt_iff_lt, OrderDual.toDual_lt_toDual]
    split_ifs <;> rfl

theorem farthest_from_fold (conformer : Nat → Point3D F) (fct : Point3D F) (l : List Nat) :
    farthest_from conformer fct l
      = l.foldl (best_step (fun a => dist2 (conformer a) fct) conformer)
          (origin, FLT_LOWEST) := rfl

theorem foldl_best_perm {α P β : Type} [LinearOrder β] (key : α → β) (val : α → P)
    (l1 l2 : List α) (s : P × β) (hperm : l1.Perm l2) (hnodup : (l1.map key).Nodup) :
    l1.foldl (best_step key val) s = l2.foldl (best_step key val) s := by
  rcases foldl_best_spec key val l1 s with ⟨hr1, hall1⟩ | ⟨pre1, a1, post1, hl1, hr1, hlt1, hpre1, hpost1⟩
  · rcases foldl_best_spec key val l2 s with ⟨hr2, -⟩ | ⟨pre2, a2, post2, hl2, -, hlt2, -, -⟩
    · rw [hr1, hr2]
    · have hmem : a2 ∈ l1 := hperm.mem_iff.mpr (by rw [hl2]; simp)
      exact absurd (hall1 a2 hmem) (not_le.mpr hlt2)
  · rcases foldl_best_spec key val l2 s with ⟨-, hall2⟩ | ⟨pre2, a2, post2, hl2, hr2, -, hpre2, hpost2⟩
    · have hmem : a1 ∈ l2 := hperm.mem_iff.mp (by rw [hl1]; simp)
      exact absurd (hall2 a1 hmem) (not_le.mpr hlt1)
    · have hmax1 : ∀ b ∈ l1, key b ≤ key a1 := by
        intro b hb
        rw [hl1] at hb
        rcases List.mem_append.mp hb with hb | hb
        · exact le_of_lt (hpre1 b hb)
        · rcases List.mem_cons.mp hb with rfl | hb
          · exact le_refl _
          · exact hpost1 b hb
      have hmax2 : ∀ b ∈ l2, key b ≤ key a2 := by
        intro b hb
        rw [hl2] at hb
        rcases List.mem_append.mp hb with hb | hb
        · exact le_of_lt (hpre2 b hb)
        · rcases List.mem_cons.mp hb with rfl | hb
          · exact le_refl _
          · exact hpost2 b hb
      have hm1 : a1 ∈ l1 := by rw [hl1]; simp
      have hm2 : a2 ∈ l2 := by rw [hl2]; simp
      have hm21 : a2 ∈ l1 := hperm.mem_iff.mpr hm2
      have hm12 : a1 ∈ l2 := hperm.mem_iff.mp hm1
      have hkey : key a1 = key a2 := le_antisymm (hmax2 a1 hm12) (hmax1 a2 hm21)
      have ha : a1 = a2 := List.inj_on_of_nodup_map hnodup hm1 hm21 hkey
      rw [hr1, hr2, ha]

theorem extremes_cst_spec (conformer : Nat → Point3D F) (ctd : Point3D F) (l : List Nat) :
    ((extremes conformer ctd l).cst = origin ∧
      ∀ a ∈ l, FLT_MAX ≤ dist2 (conformer a) ctd) ∨
    (∃ pre a post, l = pre ++ a :: post ∧
      (extremes conformer ctd l).cst = conformer a ∧
      dist2 (conformer a) ctd < FLT_MAX ∧
      (∀ b ∈ pre, dist2 (conformer a) ctd < dist2 (conformer b) ctd) ∧
      (∀ b ∈ post, dist2 (conformer a) ctd ≤ dist2 (conformer b) ctd)) := by
  have e : ((extremes conformer ctd l).cst,
      OrderDual.toDual (extremes conformer ctd l).cst_dist)
      = l.foldl (best_step (fun a => OrderDual.toDual (dist2 (conformer a) ctd)) conformer)
          (origin, OrderDual.toDual FLT_MAX) :=
    extremes_cst_fold conformer ctd l ⟨origin, FLT_MAX, origin, FLT_LOWEST⟩
  rcases foldl_best_spec (fun a => OrderDual.toDual (dist2 (conformer a) ctd)) conformer l
      (origin, OrderDual.toDual FLT_MAX) with
    ⟨hr, hall⟩ | ⟨pre, a, post, hl, hr, hlt, hpre, hpost⟩
  · left
    exact ⟨(Prod.ext_iff.mp (e.trans hr)).1, fun a ha => hall a ha⟩
  · right
    exact ⟨pre, a, post, hl, (Prod.ext_iff.mp (e.trans hr)).1, hlt,
      fun b hb => hpre b hb, fun b hb => hpost b hb⟩

theorem extremes_fct_spec (conformer : Nat → Point3D F) (ctd : Point3D F) (l : List Nat)
    (hne : l ≠ []) :
    ∃ pre a post, l = pre ++ a :: post ∧
      (extremes conformer ctd l).fct = conformer a ∧
      (∀ b ∈ pre, dist2 (conformer b) ctd < dist2 (conformer a) ctd) ∧
      (∀ b ∈ post, dist2 (conformer b) ctd ≤ dist2 (conformer a) ctd) := by
  have e : ((extremes conformer ctd l).fct, (extremes conformer ctd l).fct_dist)
      = l.foldl (best_step (fun a => dist2 (conformer a) ctd) conformer)
          (origin, FLT_LOWEST) :=
    extremes_fct_fold conformer ctd l ⟨origin, FLT_MAX, origin, FLT_LOWEST⟩
  rcases foldl_best_spec (fun a => dist2 (conformer a) ctd) conformer l
      (origin, FLT_LOWEST) with
    ⟨-, hall⟩ | ⟨pre, a, post, hl, hr, -, hpre, hpost⟩
  · obtain ⟨x, hx⟩ := List.exists_mem_of_ne_nil l hne
    have h1 := hall x hx
    have h2 := dist2_nonneg (conformer x) ctd
    have h3 : (0 : F) < FLT_MAX := FLT_MAX_pos
    simp only [FLT_LOWEST] at h1
    linarith
  · exact ⟨pre, a, post, hl, (Prod.ext_iff.mp (e.trans hr)).1, hpre, hpost⟩

theorem farthest_from_spec (conformer : Nat → Point3D F) (fct : Point3D F) (l : List Nat)
    (hne : l ≠ []) :
    ∃ pre a post, l = pre ++ a :: post ∧
      (farthest_from conformer fct l).1 = conformer a ∧
      (∀ b ∈ pre, dist2 (conformer b) fct < dist2 (conformer a) fct) ∧
      (∀ b ∈ post, dist2 (conformer b) fct ≤ dist2 (conformer a) fct) := by
  rcases foldl_best_spec (fun a => dist2 (conformer a) fct) conformer l
      (origin, FLT_LOWEST) with
    ⟨-, hall⟩ | ⟨pre, a, post, hl, hr, -, hpre, hpost⟩
  · obtain ⟨x, hx⟩ := List.exists_mem_of_ne_nil l hne
    have h1 := hall x hx
    have h2 := dist2_nonneg (conformer x) fct
    have h3 : (0 : F) < FLT_MAX := FLT_MAX_pos
    simp only [FLT_LOWEST] at h1
    linarith
  · refine ⟨pre, a, post, hl, ?_, hpre, hpost⟩
    rw [farthest_from_fold, hr]

theorem sum_position_perm (conformer : Nat → Point3D F) (l1 l2 : List Nat)
    (hperm : l1.Perm l2) : sum_position conformer l1 = sum_position conformer l2 := by
  unfold sum_position
  rw [(hperm.map (fun a => (conformer a).x)).sum_eq,
    (hperm.map (fun a => (conformer a).y)).sum_eq,
    (hperm.map (fun a => (conformer a).z)).sum_eq]

theorem extremes_perm (conformer : Nat → Point3D F) (ctd : Point3D F) (l1 l2 : List Nat)
    (hperm : l1.Perm l2) (hnodup : (l1.map (fun a => dist2 (conformer a) ctd)).Nodup) :
    (extremes conformer ctd l1).cst = (extremes conformer ctd l2).cst ∧
    (extremes conformer ctd l1).fct = (extremes conformer ctd l2).fct := by
  constructor
  · have e1 := extremes_cst_fold conformer ctd l1 ⟨origin, FLT_MAX, origin, FLT_LOWEST⟩
    have e2 := extremes_cst_fold conformer ctd l2 ⟨origin, FLT_MAX, origin, FLT_LOWEST⟩
    have hp := foldl_best_perm (fun a => OrderDual.toDual (dist2 (conformer a) ctd))
      conformer l1 l2 (origin, OrderDual.toDual FLT_MAX) hperm hnodup
    exact (Prod.ext_iff.mp (e1.trans (hp.trans e2.symm))).1
  · have e1 := extremes_fct_fold conformer ctd l1 ⟨origin, FLT_MAX, origin, FLT_LOWEST⟩
    have e2 := extremes_fct_fold conformer ctd l2 ⟨origin, FLT_MAX, origin, FLT_LOWEST⟩
    have hp := foldl_best_perm (fun a => dist2 (conformer a) ctd)
      conformer l1 l2 (origin, FLT_LOWEST) hperm hnodup
    exact (Prod.ext_iff.mp (e1.trans (hp.trans e2.symm))).1

theorem fill_prefix (sqrt : F → F) (num_points : Nat) (conformer : Nat → Point3D F)
    (subset0 : List Nat) (reference : Point3D F)
    (hlen : num_points ≤ subset0.length) (hin : ∀ a ∈ subset0, a < num_points)
    (p : Nat) (hp : p ≤ num_points) :
    ∃ distp, (List.range p).foldlM (fill_step sqrt conformer subset0 reference)
        (List.replicate num_points 0) = some distp ∧
      distp.length = num_points ∧
      ∀ q, q < p → ∀ a, subset0[q]? = some a →
        distp[a]? = some (sqrt (dist2 (conformer a) reference)) := by
  induction p with
  | zero => exact ⟨List.replicate num_points 0, by simp, by simp, by simp⟩
  | succ p ih =>
    obtain ⟨distp, hfold, hl, hval⟩ := ih (by omega)
    have hplt : p < subset0.length := by omega
    have ha : subset0[p] < distp.length := by
      rw [hl]; exact hin _ (List.getElem_mem hplt)
    refine ⟨distp.set subset0[p] (sqrt (dist2 (conformer subset0[p]) reference)), ?_, ?_, ?_⟩
    · rw [List.range_succ, List.foldlM_append, hfold]
      simp [fill_step, List.getElem?_eq_getElem hplt, ha]
    · simp [hl]
    · intro q hq a hqa
      by_cases hqa2 : subset0[p] = a
      · subst hqa2
        simp [List.getElem?_set, ha]
      · rw [List.getElem?_set_ne hqa2]
        have hq2 : q ≠ p := by
          rintro rfl
          rw [List.getElem?_eq_getElem hplt] at hqa
          exact hqa2 (Option.some.inj hqa)
        exact hval q (by omega) a hqa

theorem fill_distp_some (sqrt : F → F) (num_points : Nat) (conformer : Nat → Point3D F)
    (subset0 : List Nat) (reference : Point3D F)
    (hlen : num_points ≤ subset0.length) (hin : ∀ a ∈ subset0, a < num_points) :
    ∃ distp, fill_distp sqrt num_points conformer subset0 reference = some distp ∧
      distp.length = num_points ∧
      ∀ a ∈ subset0.take num_points,
        distp[a]? = some (sqrt (dist2 (conformer a) reference)) := by
  obtain ⟨distp, hfold, hl, hval⟩ :=
    fill_prefix sqrt num_points conformer subset0 reference hlen hin num_points (le_refl _)
  refine ⟨distp, hfold, hl, ?_⟩
  intro a ha
  obtain ⟨q, hq, hqa⟩ := List.getElem_of_mem ha
  have hq2 : q < num_points := by
    have := List.length_take_le num_points subset0
    omega
  apply hval q hq2 a
  rw [List.getElem_take] at hqa
  rw [← hqa]
  exact List.getElem?_eq_getElem _

theorem precompute_some (sqrt : F → F) (num_points : Nat) (conformer : Nat → Point3D F)
    (subset0 : List Nat)
    (hlen : num_points ≤ subset0.length) (hin : ∀ a ∈ subset0, a < num_points)
    (refs : List (Point3D F)) :
    ∃ dista, precompute sqrt num_points conformer subset0 refs = some dista ∧
      dista.length = refs.length ∧
      ∀ (r : Nat) (reference : Point3D F), refs[r]? = some reference →
        ∃ distp : List F, dista[r]? = some distp ∧ distp.length = num_points ∧
          ∀ a ∈ subset0.take num_points,
            distp[a]? = some (sqrt (dist2 (conformer a) reference)) := by
  induction refs with
  | nil => exact ⟨[], by rw [precompute, List.mapM_nil]; rfl, rfl, by simp⟩
  | cons x t ih =>
    obtain ⟨dista, hd, hl, hrows⟩ := ih
    obtain ⟨distp, hf, hpl, hv⟩ :=
      fill_distp_some sqrt num_points conformer subset0 x hlen hin
    refine ⟨distp :: dista, ?_, by simp [hl], ?_⟩
    · unfold precompute at hd ⊢
      rw [List.mapM_cons, hf, hd]
      rfl
    · intro r reference hr
      cases r with
      | zero =>
        simp only [List.getElem?_cons_zero, Option.some.injEq] at hr
        subst hr
        exact ⟨distp, by simp, hpl, hv⟩
      | succ r =>
        simp only [List.getElem?_cons_succ] at hr ⊢
        exact hrows r reference hr

theorem gather_some (distp : List F) (subset : List Nat)
    (hin : ∀ a ∈ subset, a < distp.length) :
    gather distp subset = some (subset.map (fun a => distp.getD a 0)) := by
  induction subset with
  | nil => rfl
  | cons a t ih =>
    have ha : a < distp.length := hin a (by simp)
    have ht := ih (fun b hb => hin b (by simp [hb]))
    simp [gather, ht, List.getElem?_eq_getElem ha, List.getD_eq_getElem?_getD]

end Lemmas

section WriteLemmas

theorem write_moments_some {F : Type} (m : List F) (features : List F) (qo : Nat)
    (h : qo + m.length ≤ features.length) :
    ∃ f : List F, write_moments (features, qo) m = some (f, qo + m.length) ∧
      f.length = features.length ∧
      (∀ i, i < qo → f[i]? = features[i]?) ∧
      (∀ j, j < m.length → f[qo + j]? = m[j]?) := by
  induction m generalizing features qo with
  | nil => exact ⟨features, rfl, rfl, fun _ _ => rfl, by simp⟩
  | cons e t ih =>
    have hq : qo < features.length := by
      simp only [List.length_cons] at h; omega
    obtain ⟨f, hw, hl, hpre, hval⟩ := ih (features.set qo e) (qo + 1)
      (by simp only [List.length_cons] at h; simp only [List.length_set]; omega)
    refine ⟨f, ?_, ?_, ?_, ?_⟩
    · unfold write_moments at hw ⊢
      rw [List.foldlM_cons]
      simp only [hq, if_true]
      rw [show qo + (e :: t).length = qo + 1 + t.length by simp only [List.length_cons]; omega]
      exact hw
    · rw [hl, List.length_set]
    · intro i hi
      rw [hpre i (by omega), List.getElem?_set_ne (by omega)]
    · intro j hj
      cases j with
      | zero =>
        rw [Nat.add_zero, hpre qo (by omega)]
        simp [List.getElem?_set, hq]
      | succ j =>
        simp only [List.length_cons] at hj
        rw [show qo + (j + 1) = qo + 1 + j by omega, hval j (by omega)]
        simp

end WriteLemmas

section LoopLemmas

variable {F : Type} [LinearOrderedField F]

theorem ref_step_some (sqrt cbrt : F → F) (dista : List (List F)) (subs : List (List Nat))
    (n : Nat) (hd : dista.length = 4) (hrow : ∀ r, r < 4 → (dista.getD r []).length = n)
    (hin : ∀ s ∈ subs, ∀ a ∈ s, a < n)
    (k r : Nat) (hk : k < subs.length) (hr : r < 4) (f : List F)
    (hL : 12 * k + 3 * r + 3 ≤ f.length)
    (hinv : ∀ i, i < 12 * k + 3 * r → f[i]? = expected_entry sqrt cbrt dista subs i) :
    ∃ g : List F,
      ref_step sqrt cbrt dista (subs.getD k []) (f, 12 * k + 3 * r) r
        = some (g, 12 * k + 3 * r + 3) ∧
      g.length = f.length ∧
      ∀ i, i < 12 * k + 3 * r + 3 → g[i]? = expected_entry sqrt cbrt dista subs i := by
  have hrl : r < dista.length := by omega
  have hrow2 : dista[r]? = some (dista.getD r []) := by
    rw [List.getElem?_eq_getElem hrl, List.getD_eq_getElem?_getD,
      List.getElem?_eq_getElem hrl]
    rfl
  have hmem : subs.getD k [] ∈ subs := by
    rw [List.getD_eq_getElem?_getD, List.getElem?_eq_getElem hk]
    exact List.getElem_mem hk
  have hg := gather_some (dista.getD r []) (subs.getD k [])
    (fun a ha => by rw [hrow r hr]; exact hin _ hmem a ha)
  obtain ⟨g, hw, hl, hpre, hval⟩ := write_moments_some
    (moments sqrt cbrt ((subs.getD k []).map (fun a => (dista.getD r []).getD a 0)))
    f (12 * k + 3 * r) (by rw [moments_length]; exact hL)
  rw [moments_length] at hw hval
  refine ⟨g, ?_, hl, ?_⟩
  · simp only [ref_step, hrow2, hg]
    exact hw
  · intro i hi
    by_cases hlt : i < 12 * k + 3 * r
    · rw [hpre i hlt]
      exact hinv i hlt
    · obtain ⟨j, rfl⟩ : ∃ j, i = 12 * k + 3 * r + j := ⟨i - (12 * k + 3 * r), by omega⟩
      have hj : j < 3 := by omega
      rw [hval j hj]
      unfold expected_entry
      have e1 : (12 * k + 3 * r + j) / 12 = k := by omega
      have e2 : (12 * k + 3 * r + j) / 3 % 4 = r := by omega
      have e3 : (12 * k + 3 * r + j) % 3 = j := by omega
      rw [e1, e2, e3]

theorem subset_step_some (sqrt cbrt : F → F) (dista : List (List F))
    (subs : List (List Nat))
    (n : Nat) (hd : dista.length = 4) (hrow : ∀ r, r < 4 → (dista.getD r []).length = n)
    (hin : ∀ s ∈ subs, ∀ a ∈ s, a < n)
    (k : Nat) (hk : k < subs.length) (f : List F) (hL : 12 * k + 12 ≤ f.length)
    (hinv : ∀ i, i < 12 * k → f[i]? = expected_entry sqrt cbrt dista subs i) :
    ∃ g : List F,
      subset_step sqrt cbrt dista (f, 12 * k) (subs.getD k []) = some (g, 12 * (k + 1)) ∧
      g.length = f.length ∧
      ∀ i, i < 12 * (k + 1) → g[i]? = expected_entry sqrt cbrt dista subs i := by
  obtain ⟨g0, h0, l0, i0⟩ := ref_step_some sqrt cbrt dista subs n hd hrow hin k 0 hk
    (by omega) f (by omega) (by simpa using hinv)
  obtain ⟨g1, h1, l1, i1⟩ := ref_step_some sqrt cbrt dista subs n hd hrow hin k 1 hk
    (by omega) g0 (by omega) (by simpa using i0)
  obtain ⟨g2, h2, l2, i2⟩ := ref_step_some sqrt cbrt dista subs n hd hrow hin k 2 hk
    (by omega) g1 (by omega) (by simpa using i1)
  obtain ⟨g3, h3, l3, i3⟩ := ref_step_some sqrt cbrt dista subs n hd hrow hin k 3 hk
    (by omega) g2 (by omega) (by simpa using i2)
  refine ⟨g3, ?_, by omega, ?_⟩
  · have hrange : List.range num_references = [0, 1, 2, 3] := rfl
    simp only [subset_step, hrange, List.foldlM_cons, List.foldlM_nil]
    simp only [Nat.mul_zero, Nat.add_zero, Nat.mul_one] at h0 h1 h2 h3
    rw [h0]
    simp only [Option.bind_eq_bind, Option.some_bind]
    rw [h1]
    simp only [Option.some_bind]
    rw [h2]
    simp only [Option.some_bind]
    rw [h3]
    simp only [Option.some_bind]
    rfl
  · intro i hi
    exact i3 i (by omega)

theorem subsets_loop_some (sqrt cbrt : F → F) (dista : List (List F))
    (subs : List (List Nat))
    (n : Nat) (hd : dista.length = 4) (hrow : ∀ r, r < 4 → (dista.getD r []).length = n)
    (hin : ∀ s ∈ subs, ∀ a ∈ s, a < n)
    (rest : List (List Nat)) (k : Nat) (hrest : subs.drop k = rest) (hk : k ≤ subs.length)
    (f : List F) (hL : 12 * subs.length ≤ f.length)
    (hinv : ∀ i, i < 12 * k → f[i]? = expected_entry sqrt cbrt dista subs i) :
    ∃ g : List F,
      rest.foldlM (subset_step sqrt cbrt dista) (f, 12 * k) = some (g, 12 * subs.length) ∧
      g.length = f.length ∧
      ∀ i, i < 12 * subs.length → g[i]? = expected_entry sqrt cbrt dista subs i := by
  induction rest generalizing k f with
  | nil =>
    have hk2 : k = subs.length := by
      have := congrArg List.length hrest
      simp only [List.length_drop, List.length_nil] at this
      omega
    subst hk2
    exact ⟨f, rfl, rfl, hinv⟩
  | cons x t ih =>
    have hk2 : k < subs.length := by
      have := congrArg List.length hrest
      simp only [List.length_drop, List.length_cons] at this
      omega
    have hx : subs.getD k [] = x := by
      have h1 : (subs.drop k)[0]? = some x := by rw [hrest]; simp
      rw [List.getElem?_drop] at h1
      rw [List.getD_eq_getElem?_getD]
      simp only [Nat.add_zero] at h1
      rw [h1]
      rfl
    have ht : subs.drop (k + 1) = t := by
      rw [← List.drop_drop, hrest]
      rfl
    obtain ⟨g, hg, hl, hi⟩ := subset_step_some sqrt cbrt dista subs n hd hrow hin k hk2 f
      (by omega) hinv
    obtain ⟨g2, hg2, hl2, hi2⟩ := ih (k + 1) ht (by omega) g (by omega) hi
    refine ⟨g2, ?_, by omega, hi2⟩
    rw [List.foldlM_cons, ← hx, hg]
    exact hg2

theorem moments_pair (sqrt cbrt : F → F) (a b : F) :
    moments sqrt cbrt [a, b] = [(a + b) / 2, |a - b| / 2, 0] := by
  simp only [moments, List.length_cons, List.length_nil]
  norm_num
  constructor <;> ring

theorem usrcat_features_returns (sqrt cbrt : F → F) (uninit : Fin 60 → F)
    (num_points : Nat) (conformer : Nat → Point3D F) (subsets : Fin 5 → List Nat)
    (hlen : num_points ≤ (subsets 0).length)
    (hin : ∀ k, ∀ a ∈ subsets k, a < num_points) :
    ∃ dista v,
      precompute sqrt num_points conformer (subsets 0)
        (references num_points conformer (subsets 0)) = some dista ∧
      dista.length = 4 ∧
      (∀ r, r < 4 → (dista.getD r []).length = num_points) ∧
      features_loop sqrt cbrt dista subsets uninit = some v ∧
      usrcat_features sqrt cbrt uninit num_points conformer subsets = some v ∧
      v.length = 60 := by
  obtain ⟨dista, hd, hdl, hrows⟩ := precompute_some sqrt num_points conformer (subsets 0)
    hlen (hin 0) (references num_points conformer (subsets 0))
  have hrl : (references num_points conformer (subsets 0)).length = 4 := rfl
  have hdl4 : dista.length = 4 := by rw [hdl, hrl]
  have hrow : ∀ r, r < 4 → (dista.getD r []).length = num_points := by
    intro r hr
    have hr2 : r < (references num_points conformer (subsets 0)).length := by omega
    obtain ⟨distp, h1, h2, -⟩ := hrows r _ (List.getElem?_eq_getElem hr2)
    rw [List.getD_eq_getElem?_getD, h1]
    exact h2
  have hin2 : ∀ s ∈ List.ofFn subsets, ∀ a ∈ s, a < num_points := by
    intro s hs
    obtain ⟨k, rfl⟩ := (List.mem_ofFn subsets s).mp hs
    exact hin k
  obtain ⟨g, hg, hgl, -⟩ := subsets_loop_some sqrt cbrt dista (List.ofFn subsets) num_points
    hdl4 hrow hin2 (List.ofFn subsets) 0 rfl (Nat.zero_le _) (List.ofFn uninit)
    (by simp) (by intro i hi; omega)
  simp only [Nat.mul_zero] at hg
  have hloop : features_loop sqrt cbrt dista subsets uninit = some g := by
    simp only [features_loop]
    rw [hg]
  refine ⟨dista, g, hd, hdl4, hrow, hloop, ?_, by rw [hgl]; simp⟩
  simp only [usrcat_features, hd]
  exact hloop

theorem sqrt_dist2_eq (sqrt : F → F) (p q : Point3D F) :
    sqrt (dist2 p q) = euclidean_distance sqrt p q := by
  unfold dist2 euclidean_distance
  congr 1
  ring

theorem perm_range_bounds (num_points : Nat) (subsets : Fin 5 → List Nat)
    (hperm : (subsets 0).Perm (List.range num_points))
    (hsub : ∀ k, ∀ a ∈ subsets k, a ∈ subsets 0) :
    (subsets 0).length = num_points ∧ ∀ k, ∀ a ∈ subsets k, a < num_points := by
  refine ⟨by rw [hperm.length_eq, List.length_range], ?_⟩
  intro k a ha
  exact List.mem_range.mp (hperm.mem_iff.mp (hsub k a ha))

end LoopLemmas

section ChunkLemmas

theorem cover_count_range (c idx W : Nat) :
    (((List.range W).map (fun i => (c * i, c * i + c))).filter
        (fun p => decide (p.1 ≤ idx ∧ idx < p.2))).length
      = if idx < c * W then 1 else 0 := by
  induction W with
  | zero => simp
  | succ W ih =>
    rw [List.range_succ, List.map_append, List.filter_append, List.length_append, ih]
    simp only [List.map_cons, List.map_nil, List.filter_cons, List.filter_nil]
    rw [Nat.mul_succ]
    generalize c * W = m
    by_cases h1 : idx < m
    · have h2 : ¬ (m ≤ idx ∧ idx < m + c) := by omega
      have h3 : idx < m + c := by omega
      simp [h1, h2, h3]
    · by_cases h3 : idx < m + c
      · have h2 : (m ≤ idx ∧ idx < m + c) := by omega
        simp [h1, h2, h3]
      · have h2 : ¬ (m ≤ idx ∧ idx < m + c) := by omega
        simp [h1, h2, h3]

theorem cover_count_eq (num_files idx : Nat) :
    cover_count num_files idx = if idx < 30 * (num_files / 30) then 1 else 0 := by
  have h := cover_count_range (chunk_size num_files) idx num_threads
  have e : chunk_size num_files * num_threads = 30 * (num_files / 30) := by
    simp [chunk_size, num_threads, Nat.mul_comm]
  rw [e] at h
  exact h

end ChunkLemmas

section ScanLemmas

theorem find_char_append (c : Char) (s t : List Char) (h : find_char c s ≠ npos) :
    find_char c (s ++ t) = find_char c s := by
  induction s with
  | nil => exact absurd rfl h
  | cons d s ih =>
    by_cases hd : d = c
    · simp [find_char, hd]
    · have hr : find_char c s ≠ npos := by
        intro hr
        apply h
        simp [find_char, hd, hr]
      have e : find_char c (s.append t) = find_char c s := ih hr
      simp only [List.cons_append, find_char, hd, if_false]
      rw [e]

theorem blacklisted_append (s t : List Char) (h : blacklisted s = true) :
    blacklisted (s ++ t) = true := by
  unfold blacklisted at h ⊢
  simp only [Bool.or_eq_true, bne_iff_ne, ne_eq] at h ⊢
  rcases h with (h | h) | h
  · left; left; rw [find_char_append _ s t h]; exact h
  · left; right; rw [find_char_append _ s t h]; exact h
  · right; rw [find_char_append _ s t h]; exact h

theorem read_smiles_some (line next_line : List Char) :
    read_smiles line (some next_line) = stripWhiteSpaces (after_colon line) ++ next_line := by
  unfold read_smiles
  simp only []
  split_ifs with h1 h2 h2
  · rfl
  · exact absurd h2 (by decide)
  · rfl
  · exact absurd h2 (by decide)

theorem scan_blacklisted {Mol : Type} (embed : List Char → Embedding Mol)
    (line : List Char) (rest : List (List Char)) (st : List Char × Worker Mol)
    (hs : find "SMILES:".toList line ≠ npos)
    (hb : blacklisted (read_smiles line rest.head?) = true) :
    scan embed (line :: rest) st
      = ((read_compound line st.1, st.2), rest.tail, !rest.isEmpty) := by
  cases rest with
  | nil =>
    simp only [List.head?_nil] at hb
    unfold scan
    rw [if_pos hs]
    simp [record, hb]
  | cons next_line rest2 =>
    simp only [List.head?_cons] at hb
    unfold scan
    rw [if_pos hs]
    simp [record, hb]

theorem scan_failed {Mol : Type} (embed : List Char → Embedding Mol)
    (line : List Char) (rest : List (List Char)) (st : List Char × Worker Mol)
    (hs : find "SMILES:".toList line ≠ npos)
    (hf : embed (read_smiles line rest.head?) = Embedding.raised ∨
      ∃ mol, embed (read_smiles line rest.head?) = Embedding.confs mol []) :
    scan embed (line :: rest) st
      = ((read_compound line st.1, st.2), rest.tail, !rest.isEmpty) := by
  cases rest with
  | nil =>
    simp only [List.head?_nil] at hf
    unfold scan
    rw [if_pos hs]
    rcases hf with hf | ⟨mol, hf⟩ <;>
      by_cases hb : blacklisted (read_smiles line none) = true <;>
      simp [record, hb, hf]
  | cons next_line rest2 =>
    simp only [List.head?_cons] at hf
    unfold scan
    rw [if_pos hs]
    rcases hf with hf | ⟨mol, hf⟩ <;>
      by_cases hb : blacklisted (read_smiles line (some next_line)) = true <;>
      simp [record, hb, hf]

theorem open_open {α : Type} (s : OStream α) : s.open.open = ⟨true, false, s.file⟩ := by
  unfold OStream.open
  cases h : s.is_open <;> simp

theorem process_empty_range {Mol : Type} (embed : List Char → Embedding Mol)
    (pdbqts_vector : List (List (List Char))) (w : Worker Mol) :
    process embed 0 0 pdbqts_vector w = some { w with m_Conf_file := w.m_Conf_file.open } := by
  simp [process]

theorem empty_ranges_fold {Mol : Type} (embed : List Char → Embedding Mol)
    (pdbqts_vector : List (List (List Char))) (n : Nat) (w : Worker Mol)
    (f : List (List Char × Mol × Nat)) (hw : w.m_Conf_file = ⟨true, false, f⟩) :
    (List.replicate n ((0 : Nat), (0 : Nat))).foldlM
        (fun w c => process embed c.1 c.2 pdbqts_vector w) w = some w := by
  induction n with
  | zero => rfl
  | succ n ih =>
    rw [List.replicate_succ, List.foldlM_cons, process_empty_range]
    have e : ({ w with m_Conf_file := w.m_Conf_file.open } : Worker Mol) = w := by
      cases w
      simp only [Worker.mk.injEq, and_true, true_and] at hw ⊢
      rw [hw]
      rfl
    rw [e]
    exact ih

theorem empty_ranges_fold_two {Mol : Type} (embed : List Char → Embedding Mol)
    (pdbqts_vector : List (List (List Char))) (n : Nat) (worker : Worker Mol) :
    (List.replicate (n + 2) ((0 : Nat), (0 : Nat))).foldlM
        (fun w c => process embed c.1 c.2 pdbqts_vector w) worker
      = some { worker with m_Conf_file := ⟨true, false, worker.m_Conf_file.file⟩ } := by
  rw [List.replicate_succ, List.replicate_succ, List.foldlM_cons, process_empty_range]
  simp only [Option.bind_eq_bind, Option.some_bind]
  rw [List.foldlM_cons, process_empty_range]
  simp only [Option.bind_eq_bind, Option.some_bind, open_open]
  exact empty_ranges_fold embed pdbqts_vector n _ worker.m_Conf_file.file rfl

theorem chunks_small (num_files : Nat) (h : num_files < 30) :
    chunks num_files = List.replicate 30 (0, 0) := by
  have hc : chunk_size num_files = 0 := by
    unfold chunk_size num_threads
    simp only [Nat.sub_zero]
    exact Nat.div_eq_of_lt h
  unfold chunks start_chunk end_chunk
  rw [hc]
  simp only [Nat.zero_mul, Nat.add_zero]
  rfl

end ScanLemmas

section TranslationLemmas

variable {F : Type} [LinearOrderedField F]

theorem foldl_best_map {α P β : Type} [LinearOrder β] (key : α → β) (val1 val2 : α → P)
    (l : List α) (s1 s2 : P × β) (h : s1.2 = s2.2) :
    (l.foldl (best_step key val1) s1 = s1 ∧ l.foldl (best_step key val2) s2 = s2 ∧
      ∀ a ∈ l, key a ≤ s1.2) ∨
    (∃ a ∈ l, l.foldl (best_step key val1) s1 = (val1 a, key a) ∧
      l.foldl (best_step key val2) s2 = (val2 a, key a)) := by
  induction l generalizing s1 s2 with
  | nil => left; simp
  | cons x t ih =>
    rw [List.foldl_cons, List.foldl_cons]
    by_cases hx : s1.2 < key x
    · have e1 : best_step key val1 s1 x = (val1 x, key x) := by simp [best_step, hx]
      have e2 : best_step key val2 s2 x = (val2 x, key x) := by
        simp [best_step, ← h, hx]
      rw [e1, e2]
      right
      rcases ih (val1 x, key x) (val2 x, key x) rfl with ⟨h1, h2, -⟩ | ⟨a, ha, h1, h2⟩
      · exact ⟨x, by simp, h1, h2⟩
      · exact ⟨a, by simp [ha], h1, h2⟩
    · have e1 : best_step key val1 s1 x = s1 := by simp [best_step, hx]
      have e2 : best_step key val2 s2 x = s2 := by
        simp [best_step, ← h, hx]
      rw [e1, e2]
      rcases ih s1 s2 h with ⟨h1, h2, h3⟩ | ⟨a, ha, h1, h2⟩
      · left
        refine ⟨h1, h2, ?_⟩
        intro b hb
        rcases List.mem_cons.mp hb with rfl | hb
        · exact not_lt.mp hx
        · exact h3 b hb
      · right
        exact ⟨a, by simp [ha], h1, h2⟩

theorem dist2_translate (p q t : Point3D F) : dist2 (p.add t) (q.add t) = dist2 p q := by
  unfold dist2 Point3D.add
  simp only []
  ring

theorem sum_position_translate (t : Point3D F) (conformer : Nat → Point3D F)
    (l : List Nat) :
    sum_position (translate t conformer) l
      = (sum_position conformer l).add
          ⟨(l.length : F) * t.x, (l.length : F) * t.y, (l.length : F) * t.z⟩ := by
  induction l with
  | nil => simp [sum_position, Point3D.add]
  | cons a r ih =>
    simp only [sum_position, Point3D.add, List.map_cons, List.sum_cons, List.length_cons,
      Point3D.mk.injEq, translate] at ih ⊢
    obtain ⟨hx, hy, hz⟩ := ih
    rw [hx, hy, hz]
    push_cast
    refine ⟨?_, ?_, ?_⟩ <;> ring

theorem centroid_translate (t : Point3D F) (num_points : Nat) (conformer : Nat → Point3D F)
    (l : List Nat) (hlen : l.length = num_points) (hnp : 0 < num_points) :
    centroid num_points (translate t conformer) l
      = (centroid num_points conformer l).add t := by
  rw [centroid_eq, centroid_eq, sum_position_translate, hlen]
  have hne : (num_points : F) ≠ 0 := by
    exact_mod_cast (Nat.pos_iff_ne_zero.mp hnp)
  simp only [Point3D.div, Point3D.add, Point3D.mk.injEq]
  refine ⟨?_, ?_, ?_⟩ <;> field_simp <;> ring

theorem extremes_translate (t : Point3D F) (conformer : Nat → Point3D F) (ctd : Point3D F)
    (l : List Nat) (hrange : ∃ a ∈ l, dist2 (conformer a) ctd < FLT_MAX) :
    (extremes (translate t conformer) (ctd.add t) l).cst
      = (extremes conformer ctd l).cst.add t ∧
    (extremes (translate t conformer) (ctd.add t) l).fct
      = (extremes conformer ctd l).fct.add t := by
  obtain ⟨x, hx, hxlt⟩ := hrange
  have hk : (fun a => dist2 (translate t conformer a) (ctd.add t))
      = (fun a => dist2 (conformer a) ctd) := by
    funext a
    exact dist2_translate (conformer a) ctd t
  have hkd : (fun a => OrderDual.toDual (dist2 (translate t conformer a) (ctd.add t)))
      = (fun a => OrderDual.toDual (dist2 (conformer a) ctd)) := by
    funext a
    exact congrArg OrderDual.toDual (dist2_translate (conformer a) ctd t)
  constructor
  · have e1 := extremes_cst_fold conformer ctd l ⟨origin, FLT_MAX, origin, FLT_LOWEST⟩
    have e2 := extremes_cst_fold (translate t conformer) (ctd.add t) l
      ⟨origin, FLT_MAX, origin, FLT_LOWEST⟩
    rw [hkd] at e2
    rcases foldl_best_map (fun a => OrderDual.toDual (dist2 (conformer a) ctd)) conformer
        (translate t conformer) l (origin, OrderDual.toDual FLT_MAX)
        (origin, OrderDual.toDual FLT_MAX) rfl with ⟨-, -, h3⟩ | ⟨a, -, h1, h2⟩
    · exact absurd (h3 x hx) (not_le.mpr hxlt)
    · have r1 := (Prod.ext_iff.mp (e1.trans h1)).1
      have r2 := (Prod.ext_iff.mp (e2.trans h2)).1
      exact r2.trans (congrArg (fun p => Point3D.add p t) r1.symm)
  · have e1 := extremes_fct_fold conformer ctd l ⟨origin, FLT_MAX, origin, FLT_LOWEST⟩
    have e2 := extremes_fct_fold (translate t conformer) (ctd.add t) l
      ⟨origin, FLT_MAX, origin, FLT_LOWEST⟩
    rw [hk] at e2
    rcases foldl_best_map (fun a => dist2 (conformer a) ctd) conformer
        (translate t conformer) l (origin, FLT_LOWEST)
        (origin, FLT_LOWEST) rfl with ⟨-, -, h3⟩ | ⟨a, -, h1, h2⟩
    · have h4 := h3 x hx
      have h5 := dist2_nonneg (conformer x) ctd
      have h6 : (0 : F) < FLT_MAX := FLT_MAX_pos
      simp only [FLT_LOWEST] at h4
      linarith
    · have r1 := (Prod.ext_iff.mp (e1.trans h1)).1
      have r2 := (Prod.ext_iff.mp (e2.trans h2)).1
      exact r2.trans (congrArg (fun p => Point3D.add p t) r1.symm)

theorem farthest_from_translate (t : Point3D F) (conformer : Nat → Point3D F)
    (fct : Point3D F) (l : List Nat) (hne : l ≠ []) :
    (farthest_from (translate t conformer) (fct.add t) l).1
      = (farthest_from conformer fct l).1.add t := by
  obtain ⟨x, hx⟩ := List.exists_mem_of_ne_nil l hne
  have hk : (fun a => dist2 (translate t conformer a) (fct.add t))
      = (fun a => dist2 (conformer a) fct) := by
    funext a
    exact dist2_translate (conformer a) fct t
  rw [farthest_from_fold, farthest_from_fold, hk]
  rcases foldl_best_map (fun a => dist2 (conformer a) fct) conformer
      (translate t conformer) l (origin, FLT_LOWEST)
      (origin, FLT_LOWEST) rfl with ⟨-, -, h3⟩ | ⟨a, -, h1, h2⟩
  · have h4 := h3 x hx
    have h5 := dist2_nonneg (conformer x) fct
    have h6 : (0 : F) < FLT_MAX := FLT_MAX_pos
    simp only [FLT_LOWEST] at h4
    linarith
  · rw [h1, h2]
    rfl

theorem references_translate (t : Point3D F) (num_points : Nat)
    (conformer : Nat → Point3D F) (l : List Nat)
    (hlen : l.length = num_points) (hnp : 0 < num_points)
    (hrange : ∃ a ∈ l, dist2 (conformer a) (centroid num_points conformer l) < FLT_MAX) :
    references num_points (translate t conformer) l
      = (references num_points conformer l).map (fun p => p.add t) := by
  have hne : l ≠ [] := by
    obtain ⟨a, ha, -⟩ := hrange
    exact List.ne_nil_of_mem ha
  obtain ⟨h1, h2⟩ := extremes_translate t conformer (centroid num_points conformer l) l
    hrange
  have h3 := farthest_from_translate t conformer
    (extremes conformer (centroid num_points conformer l) l).fct l hne
  unfold references
  simp only [List.map_cons, List.map_nil]
  rw [centroid_translate t num_points conformer l hlen hnp, h1, h2, h3]

theorem fill_distp_translate (sqrt : F → F) (t : Point3D F) (num_points : Nat)
    (conformer : Nat → Point3D F) (l : List Nat) (reference : Point3D F) :
    fill_distp sqrt num_points (translate t conformer) l (reference.add t)
      = fill_distp sqrt num_points conformer l reference := by
  have hstep : fill_step sqrt (translate t conformer) l (reference.add t)
      = fill_step sqrt conformer l reference := by
    funext distp p
    unfold fill_step
    simp only [translate, dist2_translate]
  unfold fill_distp
  rw [hstep]

theorem precompute_translate (sqrt : F → F) (t : Point3D F) (num_points : Nat)
    (conformer : Nat → Point3D F) (l : List Nat) (refs : List (Point3D F)) :
    precompute sqrt num_points (translate t conformer) l (refs.map (fun p => p.add t))
      = precompute sqrt num_points conformer l refs := by
  induction refs with
  | nil => rfl
  | cons x r ih =>
    unfold precompute at ih ⊢
    rw [List.map_cons, List.mapM_cons, List.mapM_cons, fill_distp_translate, ih]

theorem usrcat_features_translate (sqrt cbrt : F → F) (uninit : Fin 60 → F)
    (t : Point3D F) (num_points : Nat) (conformer : Nat → Point3D F)
    (subsets : Fin 5 → List Nat)
    (hlen : (subsets 0).length = num_points) (hnp : 0 < num_points)
    (hrange : ∃ a ∈ subsets 0,
      dist2 (conformer a) (centroid num_points conformer (subsets 0)) < FLT_MAX) :
    usrcat_features sqrt cbrt uninit num_points (translate t conformer) subsets
      = usrcat_features sqrt cbrt uninit num_points conformer subsets := by
  unfold usrcat_features
  simp only []
  rw [references_translate t num_points conformer (subsets 0) hlen hnp hrange,
    precompute_translate]

end TranslationLemmas

/-! ## Theorems -/

section Theorems

variable {F : Type} [LinearOrderedField F]

/-- Claim C1 (evaluation of the scheduler at the failing input). For every number of
files, an index lies in exactly one chunk when it is below `30 * (num_files / 30)` and in
no chunk otherwise. For `N = 103` input files the thirty chunk ranges end at index 90:
the indices that lie in no chunk are exactly `90, 91, ..., 102`, so the thirteen trailing
files are handed to no worker. -/
theorem chunks_103_drop_remainder :
    (∀ num_files idx : Nat,
      cover_count num_files idx = if idx < 30 * (num_files / 30) then 1 else 0) ∧
    end_chunk 103 29 = 90 ∧
    (List.range 103).filter (fun idx => cover_count 103 idx == 0) = List.range' 90 13 :=
  ⟨cover_count_eq, by decide, by decide⟩

/-- Claim C4. Short distance lists: no distance gives `(0, 0, 0)`, one distance `d` gives
`(d, 0, 0)`, two distances `a, b` give `((a + b) / 2, |a - b| / 2, 0)`. -/
theorem moments_short (sqrt cbrt : F → F) (d a b : F) :
    moments sqrt cbrt [] = [0, 0, 0] ∧
    moments sqrt cbrt [d] = [d, 0, 0] ∧
    moments sqrt cbrt [a, b] = [(a + b) / 2, |a - b| / 2, 0] := by
  refine ⟨by simp [moments], by simp [moments], ?_⟩
  simp only [moments, List.length_cons, List.length_nil]
  norm_num
  constructor <;> ring

/-- Claim C2. Whenever no vector access of `usrcat_features` is out of bounds (subset 0 has
at least `num_points` entries and every subset entry is below `num_points`), the function
returns a vector of exactly 60 entries, and for every subset `k`, reference point `r` and
moment `m` the entry `12 * k + 3 * r + m` is moment `m` of the distances gathered for the
atoms of subset `k` from row `r` of the table; that row holds, for each of the first
`num_points` atoms of subset 0, its distance to reference point `r`. Empty subsets are
allowed. -/
theorem usrcat_features_layout (sqrt cbrt : F → F) (uninit : Fin 60 → F) (num_points : Nat)
    (conformer : Nat → Point3D F) (subsets : Fin 5 → List Nat)
    (hlen : num_points ≤ (subsets 0).length)
    (hin : ∀ k, ∀ a ∈ subsets k, a < num_points) :
    ∃ dista v,
      precompute sqrt num_points conformer (subsets 0)
        (references num_points conformer (subsets 0)) = some dista ∧
      usrcat_features sqrt cbrt uninit num_points conformer subsets = some v ∧
      v.length = 60 ∧
      ∀ (k : Fin 5) (r : Fin 4), ∃ reference distp dists,
        (references num_points conformer (subsets 0))[(r : Nat)]? = some reference ∧
        dista[(r : Nat)]? = some distp ∧
        (∀ a ∈ (subsets 0).take num_points,
          distp[a]? = some (sqrt (dist2 (conformer a) reference))) ∧
        gather distp (subsets k) = some dists ∧
        dists = (subsets k).map (fun a => distp.getD a 0) ∧
        ∀ m : Fin 3,
          v[12 * (k : Nat) + 3 * (r : Nat) + (m : Nat)]? = (moments sqrt cbrt dists)[(m : Nat)]? := by
  obtain ⟨dista, hd, hdl, hrows⟩ := precompute_some sqrt num_points conformer (subsets 0)
    hlen (hin 0) (references num_points conformer (subsets 0))
  have hrl : (references num_points conformer (subsets 0)).length = 4 := rfl
  have hdl4 : dista.length = 4 := by rw [hdl, hrl]
  have hgetD : ∀ (r : Nat) (distp : List F), dista[r]? = some distp → dista.getD r [] = distp := by
    intro r distp h
    rw [List.getD_eq_getElem?_getD, h]
    rfl
  have hrow : ∀ r, r < 4 → (dista.getD r []).length = num_points := by
    intro r hr
    have hr2 : r < (references num_points conformer (subsets 0)).length := by omega
    obtain ⟨distp, h1, h2, -⟩ := hrows r _ (List.getElem?_eq_getElem hr2)
    rw [hgetD r distp h1, h2]
  have hsl : (List.ofFn subsets).length = 5 := by simp
  have hin2 : ∀ s ∈ List.ofFn subsets, ∀ a ∈ s, a < num_points := by
    intro s hs
    obtain ⟨k, rfl⟩ := (List.mem_ofFn subsets s).mp hs
    exact hin k
  obtain ⟨g, hg, hgl, hgi⟩ := subsets_loop_some sqrt cbrt dista (List.ofFn subsets) num_points
    hdl4 hrow hin2 (List.ofFn subsets) 0 rfl (Nat.zero_le _) (List.ofFn uninit)
    (by simp) (by intro i hi; omega)
  refine ⟨dista, g, hd, ?_, by rw [hgl]; simp, ?_⟩
  · simp only [usrcat_features, hd, features_loop]
    simp only [Nat.mul_zero] at hg
    rw [hg]
  · intro k r
    have hr2 : (r : Nat) < (references num_points conformer (subsets 0)).length := by
      rw [hrl]; exact r.isLt
    obtain ⟨distp, h1, h2, h3⟩ := hrows r _ (List.getElem?_eq_getElem hr2)
    have hgather := gather_some distp (subsets k) (fun a ha => by rw [h2]; exact hin k a ha)
    refine ⟨_, distp, _, List.getElem?_eq_getElem hr2, h1, h3, hgather, rfl, ?_⟩
    intro m
    have hk := k.isLt
    have hr := r.isLt
    have hm := m.isLt
    rw [hgi _ (by rw [hsl]; omega)]
    unfold expected_entry
    have e1 : (12 * (k : Nat) + 3 * (r : Nat) + (m : Nat)) / 12 = k := by omega
    have e2 : (12 * (k : Nat) + 3 * (r : Nat) + (m : Nat)) / 3 % 4 = r := by omega
    have e3 : (12 * (k : Nat) + 3 * (r : Nat) + (m : Nat)) % 3 = m := by omega
    rw [e1, e2, e3, hgetD r distp h1]
    have e4 : (List.ofFn subsets).getD (k : Nat) [] = subsets k := by
      have hk5 : (k : Nat) < (List.ofFn subsets).length := by rw [hsl]; exact hk
      rw [List.getD_eq_getElem?_getD, List.getElem?_eq_getElem hk5, List.getElem_ofFn]
      rfl
    rw [e4]

/-- Witness of `usrcat_features_layout`: three heavy atoms at `x = 0, 1, 4`, subsets
`0 1 2`, `0`, empty, `1 2` and `2 1 0 0` (with a duplicate). -/
theorem usrcat_features_layout_witness :
    3 ≤ ((![[0, 1, 2], [0], [], [1, 2], [2, 1, 0, 0]] : Fin 5 → List Nat) 0).length ∧
    (∀ k, ∀ a ∈ (![[0, 1, 2], [0], [], [1, 2], [2, 1, 0, 0]] : Fin 5 → List Nat) k, a < 3) ∧
    ∃ v, usrcat_features (fun x : ℚ => x) (fun x : ℚ => x) (fun _ => 7) 3
        (fun i : Nat => (⟨(i : ℚ) ^ 2, 0, 0⟩ : Point3D ℚ))
        ![[0, 1, 2], [0], [], [1, 2], [2, 1, 0, 0]] = some v ∧ v.length = 60 := by
  have h1 : 3 ≤ ((![[0, 1, 2], [0], [], [1, 2], [2, 1, 0, 0]] : Fin 5 → List Nat) 0).length := by
    decide
  have h2 : ∀ k, ∀ a ∈ (![[0, 1, 2], [0], [], [1, 2], [2, 1, 0, 0]] : Fin 5 → List Nat) k,
      a < 3 := by
    decide
  obtain ⟨_, v, -, hv, hl, -⟩ := usrcat_features_layout (fun x : ℚ => x) (fun x : ℚ => x)
    (fun _ => 7) 3 (fun i : Nat => (⟨(i : ℚ) ^ 2, 0, 0⟩ : Point3D ℚ))
    ![[0, 1, 2], [0], [], [1, 2], [2, 1, 0, 0]] h1 h2
  exact ⟨h1, h2, v, hv, hl⟩

/-- Claim C3. For `n ≥ 3` distances the first moment is their arithmetic mean, the second
is the square root of the mean squared deviation from that mean (divisor `n`), the third
is the cube root of the mean cubed deviation; hence, `sqrt` and `cbrt` being the real
square and cube root, the second moment is non-negative and squares to the population
variance, and the third moment cubes to the mean cubed deviation and has its sign. -/
theorem moments_general (sqrt cbrt : F → F)
    (hsqrt : ∀ x, 0 ≤ x → 0 ≤ sqrt x ∧ sqrt x ^ 2 = x)
    (hcbrt : ∀ x, cbrt x ^ 3 = x)
    (dists : List F) (hn : 3 ≤ dists.length) :
    ∃ m0 m1 m2 : F,
      moments sqrt cbrt dists = [m0, m1, m2] ∧
      m0 = dists.sum / (dists.length : F) ∧
      m1 = sqrt ((dists.map (fun d => (d - m0) ^ 2)).sum / (dists.length : F)) ∧
      m2 = cbrt ((dists.map (fun d => (d - m0) ^ 3)).sum / (dists.length : F)) ∧
      0 ≤ m1 ∧
      m1 ^ 2 = (dists.map (fun d => (d - m0) ^ 2)).sum / (dists.length : F) ∧
      m2 ^ 3 = (dists.map (fun d => (d - m0) ^ 3)).sum / (dists.length : F) ∧
      SignType.sign m2
        = SignType.sign ((dists.map (fun d => (d - m0) ^ 3)).sum / (dists.length : F)) := by
  have hvar : 0 ≤ (dists.map (fun d => (d - dists.sum / (dists.length : F)) ^ 2)).sum
      / (dists.length : F) := by
    apply div_nonneg
    · apply List.sum_nonneg
      intro x hx
      obtain ⟨d, -, rfl⟩ := List.mem_map.mp hx
      positivity
    · positivity
  have hm0 : dists.foldl (fun m0 d => m0 + d) 0 * ((1.0 : F) / (dists.length : F))
      = dists.sum / (dists.length : F) := by
    rw [List.sum_eq_foldl]
    norm_num
    rw [div_eq_mul_inv]
  refine ⟨dists.sum / (dists.length : F),
    sqrt ((dists.map (fun d => (d - dists.sum / (dists.length : F)) ^ 2)).sum
      / (dists.length : F)),
    cbrt ((dists.map (fun d => (d - dists.sum / (dists.length : F)) ^ 3)).sum
      / (dists.length : F)), ?_, rfl, rfl, rfl, (hsqrt _ hvar).1, (hsqrt _ hvar).2,
    hcbrt _, ?_⟩
  · have hgt : dists.length > 2 := hn
    simp only [moments, hgt, if_true, hm0]
    have e1 := foldl_add_map (fun d => (d - dists.sum / (dists.length : F))
      * (d - dists.sum / (dists.length : F))) dists 0
    have e2 := foldl_add_map (fun d => (d - dists.sum / (dists.length : F))
      * (d - dists.sum / (dists.length : F)) * (d - dists.sum / (dists.length : F))) dists 0
    simp only [zero_add] at e1 e2
    rw [e1, e2]
    have p2 : (fun d : F => (d - dists.sum / (dists.length : F))
        * (d - dists.sum / (dists.length : F)))
        = (fun d : F => (d - dists.sum / (dists.length : F)) ^ 2) := by
      funext d; ring
    have p3 : (fun d : F => (d - dists.sum / (dists.length : F))
        * (d - dists.sum / (dists.length : F)) * (d - dists.sum / (dists.length : F)))
        = (fun d : F => (d - dists.sum / (dists.length : F)) ^ 3) := by
      funext d; ring
    rw [p2, p3]
    norm_num
    constructor <;> simp only [div_eq_mul_inv]
  · have h3 := hcbrt ((dists.map (fun d => (d - dists.sum / (dists.length : F)) ^ 3)).sum
      / (dists.length : F))
    have hs := sign_pow (cbrt ((dists.map
      (fun d => (d - dists.sum / (dists.length : F)) ^ 3)).sum / (dists.length : F))) 3
    rw [h3] at hs
    rw [hs]
    generalize SignType.sign (cbrt ((dists.map
      (fun d => (d - dists.sum / (dists.length : F)) ^ 3)).sum / (dists.length : F))) = t
    cases t <;> rfl

/-- The real cube root, written with `Real.rpow`, cubes back to its argument. -/
theorem real_cbrt_cube (x : ℝ) :
    (if 0 ≤ x then x ^ (((3 : ℕ) : ℝ)⁻¹) else -((-x) ^ (((3 : ℕ) : ℝ)⁻¹))) ^ 3 = x := by
  split_ifs with h
  · exact Real.rpow_inv_natCast_pow h (by norm_num)
  · have h2 : (0 : ℝ) ≤ -x := by linarith
    have h3 := Real.rpow_inv_natCast_pow h2 (show (3 : ℕ) ≠ 0 by norm_num)
    have h4 : (-((-x) ^ (((3 : ℕ) : ℝ)⁻¹))) ^ 3 = -(((-x) ^ (((3 : ℕ) : ℝ)⁻¹)) ^ 3) := by
      ring
    rw [h4, h3]
    ring

/-- Witness of `moments_general` on the asymmetric sample `1, 2, 6` over the reals: the
mean is `3`, the second moment is non-negative with square `14 / 3`, the third moment
has cube `6` and is positive. -/
theorem moments_general_witness :
    3 ≤ ([1, 2, 6] : List ℝ).length ∧
    ∃ m1 m2 : ℝ,
      moments Real.sqrt
        (fun x : ℝ => if 0 ≤ x then x ^ (((3 : ℕ) : ℝ)⁻¹) else -((-x) ^ (((3 : ℕ) : ℝ)⁻¹)))
        [1, 2, 6] = [3, m1, m2] ∧
      0 ≤ m1 ∧ m1 ^ 2 = 14 / 3 ∧ m2 ^ 3 = 6 ∧ SignType.sign m2 = 1 := by
  obtain ⟨m0, m1, m2, h, h0, -, -, hp, hsq, hcu, hsign⟩ :=
    moments_general Real.sqrt
      (fun x : ℝ => if 0 ≤ x then x ^ (((3 : ℕ) : ℝ)⁻¹) else -((-x) ^ (((3 : ℕ) : ℝ)⁻¹)))
      (fun x hx => ⟨Real.sqrt_nonneg x, Real.sq_sqrt hx⟩)
      real_cbrt_cube [1, 2, 6] (by simp)
  have e0 : m0 = 3 := by rw [h0]; norm_num
  subst e0
  refine ⟨by simp, m1, m2, h, hp, ?_, ?_, ?_⟩
  · rw [hsq]; norm_num
  · rw [hcu]; norm_num
  · rw [hsign]
    norm_num

/-- Claim C5. For a non-empty subset-0 match list whose size is the heavy-atom count of
the molecule (the assertion `subset0.size() == num_points` of line 237, the data-model
invariant of the heavy subset), reference point 0 is the arithmetic mean of the positions
of the subset-0 atoms, that is their coordinate sum divided by the number of subset-0
atoms. -/
theorem centroid_is_mean (num_points : Nat) (conformer : Nat → Point3D F)
    (subset0 : List Nat) (_hne : subset0 ≠ []) (hlen : subset0.length = num_points) :
    (references num_points conformer subset0)[0]?
      = some (mean_position conformer subset0) ∧
    (references num_points conformer subset0)[0]?
      = some ((sum_position conformer subset0).div (subset0.length : F)) := by
  have h : (references num_points conformer subset0)[0]?
      = some ((sum_position conformer subset0).div (num_points : F)) := by
    simp [references, centroid_eq]
  rw [h, ← hlen]
  exact ⟨rfl, rfl⟩

/-- Witness of `centroid_is_mean`: three atoms at `x = 0, 1, 2`, heavy-atom count `3`;
reference point 0 is `(1, 0, 0)`. -/
theorem centroid_is_mean_witness :
    ([0, 1, 2] : List Nat) ≠ [] ∧ ([0, 1, 2] : List Nat).length = 3 ∧
    (references 3 (fun i => (⟨(i : ℚ), 0, 0⟩ : Point3D ℚ)) [0, 1, 2])[0]?
      = some (mean_position (fun i => (⟨(i : ℚ), 0, 0⟩ : Point3D ℚ)) [0, 1, 2]) ∧
    mean_position (fun i => (⟨(i : ℚ), 0, 0⟩ : Point3D ℚ)) [0, 1, 2] = ⟨1, 0, 0⟩ := by
  have h2 : mean_position (fun i => (⟨(i : ℚ), 0, 0⟩ : Point3D ℚ)) [0, 1, 2] = ⟨1, 0, 0⟩ := by
    simp [mean_position]
    norm_num
  exact ⟨by simp, rfl,
    (centroid_is_mean 3 (fun i => (⟨(i : ℚ), 0, 0⟩ : Point3D ℚ)) [0, 1, 2] (by simp) rfl).1,
    h2⟩

/-- Claim C6. With a heavy-atom count of at least one and some subset-0 atom whose squared
distance to the centroid is below `FLT_MAX` (so subset 0 is non-empty and the start value
of `cst_dist` is beaten), reference point 1 is the position of the first atom of subset 0
whose squared distance to reference point 0 is minimal, and reference point 2 the position
of the first atom whose squared distance to reference point 0 is maximal. -/
theorem closest_and_farthest (num_points : Nat) (conformer : Nat → Point3D F)
    (subset0 : List Nat) (_hnp : 0 < num_points)
    (hrange : ∃ a ∈ subset0,
      dist2 (conformer a) (centroid num_points conformer subset0) < FLT_MAX) :
    ∃ ctd a b,
      (references num_points conformer subset0)[0]? = some ctd ∧
      first_minimiser (fun i => dist2 (conformer i) ctd) subset0 a ∧
      (references num_points conformer subset0)[1]? = some (conformer a) ∧
      first_maximiser (fun i => dist2 (conformer i) ctd) subset0 b ∧
      (references num_points conformer subset0)[2]? = some (conformer b) := by
  obtain ⟨x, hx, hxlt⟩ := hrange
  have hne : subset0 ≠ [] := List.ne_nil_of_mem hx
  obtain ⟨pre2, b, post2, hl2, hfct, hpre2, hpost2⟩ :=
    extremes_fct_spec conformer (centroid num_points conformer subset0) subset0 hne
  rcases extremes_cst_spec conformer (centroid num_points conformer subset0) subset0 with
    ⟨-, hall⟩ | ⟨pre1, a, post1, hl1, hcst, -, hpre1, hpost1⟩
  · exact absurd (hall x hx) (not_le.mpr hxlt)
  · refine ⟨centroid num_points conformer subset0, a, b, rfl, ⟨pre1, post1, hl1, hpre1, hpost1⟩,
      ?_, ⟨pre2, post2, hl2, hpre2, hpost2⟩, ?_⟩
    · simp [references, hcst]
    · simp [references, hfct]

/-- Witness of `closest_and_farthest`: three atoms at `x = 0, 1, 4`. -/
theorem closest_and_farthest_witness :
    0 < 3 ∧
    (∃ a ∈ [0, 1, 2], dist2 ((fun i : Nat => (⟨(i : ℚ) ^ 2, 0, 0⟩ : Point3D ℚ)) a) (centroid 3 (fun i : Nat => (⟨(i : ℚ) ^ 2, 0, 0⟩ : Point3D ℚ)) [0, 1, 2]) < FLT_MAX) ∧
    ∃ ctd a b,
      (references 3 (fun i : Nat => (⟨(i : ℚ) ^ 2, 0, 0⟩ : Point3D ℚ)) [0, 1, 2])[0]? = some ctd ∧
      first_minimiser (fun i => dist2 ((fun i : Nat => (⟨(i : ℚ) ^ 2, 0, 0⟩ : Point3D ℚ)) i) ctd) [0, 1, 2] a ∧
      (references 3 (fun i : Nat => (⟨(i : ℚ) ^ 2, 0, 0⟩ : Point3D ℚ)) [0, 1, 2])[1]? = some ((fun i : Nat => (⟨(i : ℚ) ^ 2, 0, 0⟩ : Point3D ℚ)) a) ∧
      first_maximiser (fun i => dist2 ((fun i : Nat => (⟨(i : ℚ) ^ 2, 0, 0⟩ : Point3D ℚ)) i) ctd) [0, 1, 2] b ∧
      (references 3 (fun i : Nat => (⟨(i : ℚ) ^ 2, 0, 0⟩ : Point3D ℚ)) [0, 1, 2])[2]? = some ((fun i : Nat => (⟨(i : ℚ) ^ 2, 0, 0⟩ : Point3D ℚ)) b) := by
  have h : ∃ a ∈ [0, 1, 2], dist2 ((fun i : Nat => (⟨(i : ℚ) ^ 2, 0, 0⟩ : Point3D ℚ)) a) (centroid 3 (fun i : Nat => (⟨(i : ℚ) ^ 2, 0, 0⟩ : Point3D ℚ)) [0, 1, 2]) < FLT_MAX := by
    refine ⟨1, by simp, ?_⟩
    simp [dist2, centroid, Point3D.add, Point3D.div, origin, FLT_MAX]
    norm_num
  exact ⟨by decide, h, closest_and_farthest 3 (fun i : Nat => (⟨(i : ℚ) ^ 2, 0, 0⟩ : Point3D ℚ)) [0, 1, 2] (by decide) h⟩

/-- Claim C7. For a non-empty subset 0, reference point 3 is the position of a subset-0
atom whose squared distance to reference point 2 is maximal over subset 0. -/
theorem farthest_from_farthest (num_points : Nat) (conformer : Nat → Point3D F)
    (subset0 : List Nat) (hne : subset0 ≠ []) :
    ∃ fct a,
      (references num_points conformer subset0)[2]? = some fct ∧
      a ∈ subset0 ∧
      (references num_points conformer subset0)[3]? = some (conformer a) ∧
      ∀ b ∈ subset0, dist2 (conformer b) fct ≤ dist2 (conformer a) fct := by
  obtain ⟨pre, a, post, hl, hftf, hpre, hpost⟩ :=
    farthest_from_spec conformer
      (extremes conformer (centroid num_points conformer subset0) subset0).fct subset0 hne
  refine ⟨(extremes conformer (centroid num_points conformer subset0) subset0).fct, a, rfl,
    by rw [hl]; simp, by simp [references, hftf], ?_⟩
  intro b hb
  rw [hl] at hb
  rcases List.mem_append.mp hb with hb | hb
  · exact le_of_lt (hpre b hb)
  · rcases List.mem_cons.mp hb with rfl | hb
    · exact le_refl _
    · exact hpost b hb

/-- Witness of `farthest_from_farthest`: three atoms at `x = 0, 1, 4`. -/
theorem farthest_from_farthest_witness :
    ([0, 1, 2] : List Nat) ≠ [] ∧
    ∃ fct a,
      (references 3 (fun i : Nat => (⟨(i : ℚ) ^ 2, 0, 0⟩ : Point3D ℚ)) [0, 1, 2])[2]? = some fct ∧
      a ∈ [0, 1, 2] ∧
      (references 3 (fun i : Nat => (⟨(i : ℚ) ^ 2, 0, 0⟩ : Point3D ℚ)) [0, 1, 2])[3]? = some ((fun i : Nat => (⟨(i : ℚ) ^ 2, 0, 0⟩ : Point3D ℚ)) a) ∧
      ∀ b ∈ [0, 1, 2], dist2 ((fun i : Nat => (⟨(i : ℚ) ^ 2, 0, 0⟩ : Point3D ℚ)) b) fct ≤ dist2 ((fun i : Nat => (⟨(i : ℚ) ^ 2, 0, 0⟩ : Point3D ℚ)) a) fct :=
  ⟨by simp, farthest_from_farthest 3 (fun i : Nat => (⟨(i : ℚ) ^ 2, 0, 0⟩ : Point3D ℚ)) [0, 1, 2] (by simp)⟩

/-- Claim C8. Two subset-0 lists that are permutations of each other give the same four
reference points, provided the squared distances of the listed atoms to the centroid are
pairwise distinct and their squared distances to the farthest atom (reference point 2)
are pairwise distinct. -/
theorem references_perm (num_points : Nat) (conformer : Nat → Point3D F)
    (l1 l2 : List Nat) (_hnp : 0 < num_points) (hperm : l1.Perm l2)
    (hctd : (l1.map (fun a =>
      dist2 (conformer a) ((references num_points conformer l1).getD 0 origin))).Nodup)
    (hfct : (l1.map (fun a =>
      dist2 (conformer a) ((references num_points conformer l1).getD 2 origin))).Nodup) :
    references num_points conformer l1 = references num_points conformer l2 := by
  have hc : centroid num_points conformer l1 = centroid num_points conformer l2 := by
    rw [centroid_eq, centroid_eq, sum_position_perm conformer l1 l2 hperm]
  have hctd1 : (l1.map (fun a =>
      dist2 (conformer a) (centroid num_points conformer l1))).Nodup := hctd
  have hfct1 : (l1.map (fun a => dist2 (conformer a)
      (extremes conformer (centroid num_points conformer l1) l1).fct)).Nodup := hfct
  obtain ⟨h1, h2⟩ :=
    extremes_perm conformer (centroid num_points conformer l1) l1 l2 hperm hctd1
  have h3 : farthest_from conformer
      (extremes conformer (centroid num_points conformer l1) l1).fct l1
      = farthest_from conformer
          (extremes conformer (centroid num_points conformer l1) l1).fct l2 := by
    rw [farthest_from_fold, farthest_from_fold]
    exact foldl_best_perm _ conformer l1 l2 (origin, FLT_LOWEST) hperm hfct1
  unfold references
  simp only []
  rw [← hc, ← h1, ← h2, ← h3]

/-- Witness of `references_perm`: three atoms at `x = 0, 1, 4`, listed as `0, 1, 2` and
as `2, 0, 1`. -/
theorem references_perm_witness :
    0 < 3 ∧ ([0, 1, 2] : List Nat).Perm [2, 0, 1] ∧
    ([0, 1, 2].map (fun a =>
      dist2 ((fun i : Nat => (⟨(i : ℚ) ^ 2, 0, 0⟩ : Point3D ℚ)) a) ((references 3 (fun i : Nat => (⟨(i : ℚ) ^ 2, 0, 0⟩ : Point3D ℚ)) [0, 1, 2]).getD 0 origin))).Nodup ∧
    ([0, 1, 2].map (fun a =>
      dist2 ((fun i : Nat => (⟨(i : ℚ) ^ 2, 0, 0⟩ : Point3D ℚ)) a) ((references 3 (fun i : Nat => (⟨(i : ℚ) ^ 2, 0, 0⟩ : Point3D ℚ)) [0, 1, 2]).getD 2 origin))).Nodup ∧
    references 3 (fun i : Nat => (⟨(i : ℚ) ^ 2, 0, 0⟩ : Point3D ℚ)) [0, 1, 2] = references 3 (fun i : Nat => (⟨(i : ℚ) ^ 2, 0, 0⟩ : Point3D ℚ)) [2, 0, 1] := by
  have h0 : ([0, 1, 2].map (fun a =>
      dist2 ((fun i : Nat => (⟨(i : ℚ) ^ 2, 0, 0⟩ : Point3D ℚ)) a) ((references 3 (fun i : Nat => (⟨(i : ℚ) ^ 2, 0, 0⟩ : Point3D ℚ)) [0, 1, 2]).getD 0 origin))).Nodup := by
    simp [dist2, references, centroid, Point3D.add, Point3D.div, origin]
    norm_num
  have h2 : ([0, 1, 2].map (fun a =>
      dist2 ((fun i : Nat => (⟨(i : ℚ) ^ 2, 0, 0⟩ : Point3D ℚ)) a) ((references 3 (fun i : Nat => (⟨(i : ℚ) ^ 2, 0, 0⟩ : Point3D ℚ)) [0, 1, 2]).getD 2 origin))).Nodup := by
    simp [dist2, references, centroid, Point3D.add, Point3D.div, origin, extremes,
      extremes_step, FLT_MAX, FLT_LOWEST]
    norm_num
  exact ⟨by decide, by decide, h0, h2,
    references_perm 3 (fun i : Nat => (⟨(i : ℚ) ^ 2, 0, 0⟩ : Point3D ℚ)) [0, 1, 2] [2, 0, 1] (by decide) (by decide) h0 h2⟩

/-- Claim C15. For every number of files the chunk ranges are contiguous ranges inside
`[0, N)`, each chunk starts exactly where the previous one ends, and two different chunks
are disjoint: the earlier one ends no later than the later one starts, so no index lies
in two chunks. -/
theorem chunks_contiguous_disjoint (num_files i j : Nat) (hij : i < j)
    (hj : j < num_threads) :
    (chunks num_files)[i]? = some (start_chunk num_files i, end_chunk num_files i) ∧
    (chunks num_files)[j]? = some (start_chunk num_files j, end_chunk num_files j) ∧
    start_chunk num_files i ≤ end_chunk num_files i ∧
    end_chunk num_files i ≤ num_files ∧
    start_chunk num_files j ≤ end_chunk num_files j ∧
    end_chunk num_files j ≤ num_files ∧
    start_chunk num_files (i + 1) = end_chunk num_files i ∧
    end_chunk num_files i ≤ start_chunk num_files j ∧
    ∀ idx, cover_count num_files idx ≤ 1 := by
  have hi : i < num_threads := by omega
  have hci : end_chunk num_files i = chunk_size num_files * (i + 1) := by
    unfold end_chunk; rw [Nat.mul_succ]
  have hcj : end_chunk num_files j = chunk_size num_files * (j + 1) := by
    unfold end_chunk; rw [Nat.mul_succ]
  have htot : chunk_size num_files * num_threads ≤ num_files := by
    unfold chunk_size
    simp only [Nat.sub_zero]
    exact Nat.div_mul_le_self num_files num_threads
  have hget : ∀ k, k < num_threads →
      (chunks num_files)[k]? = some (start_chunk num_files k, end_chunk num_files k) := by
    intro k hk
    unfold chunks
    rw [List.getElem?_map, List.getElem?_range hk]
    rfl
  refine ⟨hget i hi, hget j hj, ?_, ?_, ?_, ?_, ?_, ?_, ?_⟩
  · unfold start_chunk end_chunk; omega
  · rw [hci]
    exact le_trans (Nat.mul_le_mul_left _ (by omega)) htot
  · unfold start_chunk end_chunk; omega
  · rw [hcj]
    exact le_trans (Nat.mul_le_mul_left _ (by omega)) htot
  · rw [hci]; rfl
  · rw [hci]
    exact Nat.mul_le_mul_left _ (by omega)
  · intro idx
    rw [cover_count_eq]
    split_ifs <;> omega

/-- Witness of `chunks_contiguous_disjoint`: 103 files, chunks 3 and 7. -/
theorem chunks_contiguous_disjoint_witness :
    3 < 7 ∧ 7 < num_threads ∧
    (chunks 103)[3]? = some (start_chunk 103 3, end_chunk 103 3) ∧
    (chunks 103)[7]? = some (start_chunk 103 7, end_chunk 103 7) ∧
    start_chunk 103 3 ≤ end_chunk 103 3 ∧
    end_chunk 103 3 ≤ 103 ∧
    start_chunk 103 7 ≤ end_chunk 103 7 ∧
    end_chunk 103 7 ≤ 103 ∧
    start_chunk 103 (3 + 1) = end_chunk 103 3 ∧
    end_chunk 103 3 ≤ start_chunk 103 7 ∧
    ∀ idx, cover_count 103 idx ≤ 1 :=
  ⟨by decide, by decide, chunks_contiguous_disjoint 103 3 7 (by decide) (by decide)⟩

/-- Claim C20. With `sqrt` and `cbrt` the real square and cube root, the dedicated
branches for one and for two distances give the same three moments as the general
formulas (mean, square root of the population variance, cube root of the mean cubed
deviation) applied to the same list. -/
theorem short_moments_agree_with_general (sqrt cbrt : F → F)
    (hsqrt : ∀ x, 0 ≤ x → 0 ≤ sqrt x ∧ sqrt x ^ 2 = x)
    (hcbrt : ∀ x, cbrt x ^ 3 = x)
    (dists : List F) (hlen : dists.length = 1 ∨ dists.length = 2) :
    moments sqrt cbrt dists = general_moments sqrt cbrt dists := by
  have hs0 : sqrt 0 = 0 := by
    have h := (hsqrt 0 (le_refl _)).2
    exact (pow_eq_zero_iff (by norm_num)).mp h
  have hc0 : cbrt 0 = 0 := (pow_eq_zero_iff (by norm_num)).mp (hcbrt 0)
  rcases hlen with h1 | h2
  · match dists, h1 with
    | [d], _ =>
      simp [moments, general_moments, hs0, hc0]
  · match dists, h2 with
    | [a, b], _ =>
      have hmean : ([a, b] : List F).sum / (([a, b] : List F).length : F) = (a + b) / 2 := by
        simp
      have hvar : (([a, b] : List F).map (fun d => (d - (a + b) / 2) ^ 2)).sum
          / (([a, b] : List F).length : F) = ((a - b) / 2) ^ 2 := by
        simp
        ring
      have hcub : (([a, b] : List F).map (fun d => (d - (a + b) / 2) ^ 3)).sum
          / (([a, b] : List F).length : F) = 0 := by
        simp
        ring
      have hroot : sqrt (((a - b) / 2) ^ 2) = |a - b| / 2 := by
        obtain ⟨hn, hsq⟩ := hsqrt (((a - b) / 2) ^ 2) (sq_nonneg _)
        have habs := (sq_eq_sq_iff_abs_eq_abs _ _).mp hsq
        rw [abs_of_nonneg hn, abs_div] at habs
        rw [habs]
        norm_num
      have hm := moments_pair sqrt cbrt a b
      unfold general_moments
      simp only [hmean, hvar, hcub, hroot, hc0]
      exact hm

/-- Witness of `short_moments_agree_with_general` over the reals on the distances `1, 3`. -/
theorem short_moments_agree_with_general_witness :
    (([1, 3] : List ℝ).length = 1 ∨ ([1, 3] : List ℝ).length = 2) ∧
    moments Real.sqrt
        (fun x : ℝ => if 0 ≤ x then x ^ (((3 : ℕ) : ℝ)⁻¹) else -((-x) ^ (((3 : ℕ) : ℝ)⁻¹)))
        [1, 3]
      = general_moments Real.sqrt
        (fun x : ℝ => if 0 ≤ x then x ^ (((3 : ℕ) : ℝ)⁻¹) else -((-x) ^ (((3 : ℕ) : ℝ)⁻¹)))
        [1, 3] :=
  ⟨Or.inr rfl,
   short_moments_agree_with_general Real.sqrt
     (fun x : ℝ => if 0 ≤ x then x ^ (((3 : ℕ) : ℝ)⁻¹) else -((-x) ^ (((3 : ℕ) : ℝ)⁻¹)))
     (fun x hx => ⟨Real.sqrt_nonneg x, Real.sq_sqrt hx⟩) real_cbrt_cube [1, 3] (Or.inr rfl)⟩

/-- Claim C17. For a molecule with heavy-atom count `num_points` whose subset 0 lists
the atom indices `0 .. num_points - 1` once each, and subsets whose entries are all drawn
from subset 0 (duplicates and empty subsets allowed): subset 0 has exactly `num_points`
entries, so every read `subset0[p]` with `p < num_points` is in bounds; the table has 4
rows of `num_points` entries and every subset entry is below `num_points`, so every table
access is in bounds; and the function returns a vector of 60 values (the embedding
returns nothing as soon as one access is out of bounds). -/
theorem usrcat_features_in_bounds (sqrt cbrt : F → F) (uninit : Fin 60 → F)
    (num_points : Nat) (conformer : Nat → Point3D F) (subsets : Fin 5 → List Nat)
    (hperm : (subsets 0).Perm (List.range num_points))
    (hsub : ∀ k, ∀ a ∈ subsets k, a ∈ subsets 0) :
    (subsets 0).length = num_points ∧
    (∀ k, ∀ a ∈ subsets k, a < num_points) ∧
    ∃ dista v,
      precompute sqrt num_points conformer (subsets 0)
        (references num_points conformer (subsets 0)) = some dista ∧
      dista.length = 4 ∧
      (∀ r, r < 4 → (dista.getD r []).length = num_points) ∧
      usrcat_features sqrt cbrt uninit num_points conformer subsets = some v ∧
      v.length = 60 := by
  obtain ⟨hlen, hin⟩ := perm_range_bounds num_points subsets hperm hsub
  obtain ⟨dista, v, hd, hdl, hrow, -, hv, hvl⟩ :=
    usrcat_features_returns sqrt cbrt uninit num_points conformer subsets
      (le_of_eq hlen.symm) hin
  exact ⟨hlen, hin, dista, v, hd, hdl, hrow, hv, hvl⟩

/-- Witness of `usrcat_features_in_bounds`: three heavy atoms, subsets `0 1 2`, `0`,
empty, `1 2` and `2 1 0 0`. -/
theorem usrcat_features_in_bounds_witness :
    ((![[0, 1, 2], [0], [], [1, 2], [2, 1, 0, 0]] : Fin 5 → List Nat) 0).Perm (List.range 3) ∧
    (∀ k, ∀ a ∈ (![[0, 1, 2], [0], [], [1, 2], [2, 1, 0, 0]] : Fin 5 → List Nat) k,
      a ∈ (![[0, 1, 2], [0], [], [1, 2], [2, 1, 0, 0]] : Fin 5 → List Nat) 0) ∧
    ∃ v, usrcat_features (fun x : ℚ => x) (fun x : ℚ => x) (fun _ => 7) 3
        (fun i : Nat => (⟨(i : ℚ) ^ 2, 0, 0⟩ : Point3D ℚ))
        ![[0, 1, 2], [0], [], [1, 2], [2, 1, 0, 0]] = some v ∧ v.length = 60 := by
  have h1 : ((![[0, 1, 2], [0], [], [1, 2], [2, 1, 0, 0]] : Fin 5 → List Nat) 0).Perm (List.range 3) := by
    decide
  have h2 : ∀ k, ∀ a ∈ (![[0, 1, 2], [0], [], [1, 2], [2, 1, 0, 0]] : Fin 5 → List Nat) k,
      a ∈ (![[0, 1, 2], [0], [], [1, 2], [2, 1, 0, 0]] : Fin 5 → List Nat) 0 := by
    decide
  obtain ⟨-, -, _, v, -, -, -, hv, hl⟩ := usrcat_features_in_bounds (fun x : ℚ => x)
    (fun x : ℚ => x) (fun _ => 7) 3 (fun i : Nat => (⟨(i : ℚ) ^ 2, 0, 0⟩ : Point3D ℚ))
    ![[0, 1, 2], [0], [], [1, 2], [2, 1, 0, 0]] h1 h2
  exact ⟨h1, h2, v, hv, hl⟩

/-- Claim C18. For a molecule with heavy-atom count `num_points` whose subset 0 lists
the atom indices `0 .. num_points - 1` once each (in any order) and subsets drawn from
subset 0: for every subset `k`, every reference point `r` and every member atom `a` of
subset `k`, the entry `dista[r][a]` of the precomputed table is the Euclidean distance
between the position of atom `a` and reference point `r`, and the distances gathered for
subset `k` are those Euclidean distances, atom by atom. -/
theorem table_equals_direct_distance (sqrt : F → F) (num_points : Nat)
    (conformer : Nat → Point3D F) (subsets : Fin 5 → List Nat)
    (hperm : (subsets 0).Perm (List.range num_points))
    (hsub : ∀ k, ∀ a ∈ subsets k, a ∈ subsets 0) :
    ∃ dista,
      precompute sqrt num_points conformer (subsets 0)
        (references num_points conformer (subsets 0)) = some dista ∧
      ∀ (k : Fin 5) (r : Fin 4), ∃ reference distp,
        (references num_points conformer (subsets 0))[(r : Nat)]? = some reference ∧
        dista[(r : Nat)]? = some distp ∧
        (∀ a ∈ subsets k,
          distp[a]? = some (euclidean_distance sqrt (conformer a) reference)) ∧
        gather distp (subsets k)
          = some ((subsets k).map
              (fun a => euclidean_distance sqrt (conformer a) reference)) := by
  obtain ⟨hlen, hin⟩ := perm_range_bounds num_points subsets hperm hsub
  obtain ⟨dista, hd, -, hrows⟩ := precompute_some sqrt num_points conformer (subsets 0)
    (le_of_eq hlen.symm) (hin 0) (references num_points conformer (subsets 0))
  refine ⟨dista, hd, ?_⟩
  intro k r
  have hr2 : (r : Nat) < (references num_points conformer (subsets 0)).length := r.isLt
  obtain ⟨distp, h1, h2, h3⟩ := hrows r _ (List.getElem?_eq_getElem hr2)
  have hval : ∀ a ∈ subsets k, distp[a]? = some (euclidean_distance sqrt (conformer a)
      (references num_points conformer (subsets 0))[(r : Nat)]) := by
    intro a ha
    have ha0 : a ∈ (subsets 0).take num_points := by
      rw [← hlen, List.take_length]
      exact hsub k a ha
    rw [h3 a ha0, sqrt_dist2_eq sqrt]
  refine ⟨_, distp, List.getElem?_eq_getElem hr2, h1, hval, ?_⟩
  rw [gather_some distp (subsets k) (fun a ha => by rw [h2]; exact hin k a ha)]
  congr 1
  apply List.map_congr_left
  intro a ha
  rw [List.getD_eq_getElem?_getD, hval a ha]
  rfl

/-- Witness of `table_equals_direct_distance`: three heavy atoms listed as `2 0 1`. -/
theorem table_equals_direct_distance_witness :
    ((![[2, 0, 1], [0], [], [1, 2], [2, 1, 0, 0]] : Fin 5 → List Nat) 0).Perm
      (List.range 3) ∧
    (∀ k, ∀ a ∈ (![[2, 0, 1], [0], [], [1, 2], [2, 1, 0, 0]] : Fin 5 → List Nat) k,
      a ∈ (![[2, 0, 1], [0], [], [1, 2], [2, 1, 0, 0]] : Fin 5 → List Nat) 0) ∧
    ∃ dista,
      precompute (fun x : ℚ => x) 3 (fun i : Nat => (⟨(i : ℚ) ^ 2, 0, 0⟩ : Point3D ℚ))
        ((![[2, 0, 1], [0], [], [1, 2], [2, 1, 0, 0]] : Fin 5 → List Nat) 0)
        (references 3 (fun i : Nat => (⟨(i : ℚ) ^ 2, 0, 0⟩ : Point3D ℚ))
          ((![[2, 0, 1], [0], [], [1, 2], [2, 1, 0, 0]] : Fin 5 → List Nat) 0))
        = some dista := by
  have h1 : ((![[2, 0, 1], [0], [], [1, 2], [2, 1, 0, 0]] : Fin 5 → List Nat) 0).Perm
      (List.range 3) := by
    decide
  have h2 : ∀ k, ∀ a ∈ (![[2, 0, 1], [0], [], [1, 2], [2, 1, 0, 0]] : Fin 5 → List Nat) k,
      a ∈ (![[2, 0, 1], [0], [], [1, 2], [2, 1, 0, 0]] : Fin 5 → List Nat) 0 := by
    decide
  obtain ⟨dista, hd, -⟩ := table_equals_direct_distance (fun x : ℚ => x) 3
    (fun i : Nat => (⟨(i : ℚ) ^ 2, 0, 0⟩ : Point3D ℚ))
    ![[2, 0, 1], [0], [], [1, 2], [2, 1, 0, 0]] h1 h2
  exact ⟨h1, h2, dista, hd⟩

/-- Claim C19. For a molecule with heavy-atom count `num_points ≥ 1` whose subset 0 lists
the atom indices `0 .. num_points - 1` once each, subsets drawn from subset 0, and a
conformer in which some subset-0 atom has a squared distance to the centroid below
`FLT_MAX` (the start value of `cst_dist`): adding a vector `t` to every atom position
leaves the 60 values unchanged, in exact arithmetic. -/
theorem usrcat_features_translation_invariant (sqrt cbrt : F → F) (uninit : Fin 60 → F)
    (t : Point3D F) (num_points : Nat) (conformer : Nat → Point3D F)
    (subsets : Fin 5 → List Nat)
    (hnp : 0 < num_points)
    (hperm : (subsets 0).Perm (List.range num_points))
    (hsub : ∀ k, ∀ a ∈ subsets k, a ∈ subsets 0)
    (hrange : ∃ a ∈ subsets 0,
      dist2 (conformer a) (centroid num_points conformer (subsets 0)) < FLT_MAX) :
    ∃ v, v.length = 60 ∧
      usrcat_features sqrt cbrt uninit num_points (translate t conformer) subsets = some v ∧
      usrcat_features sqrt cbrt uninit num_points conformer subsets = some v := by
  obtain ⟨hlen, hin⟩ := perm_range_bounds num_points subsets hperm hsub
  obtain ⟨-, v, -, -, -, -, hv, hvl⟩ :=
    usrcat_features_returns sqrt cbrt uninit num_points conformer subsets
      (le_of_eq hlen.symm) hin
  refine ⟨v, hvl, ?_, hv⟩
  rw [usrcat_features_translate sqrt cbrt uninit t num_points conformer subsets hlen hnp
    hrange]
  exact hv

/-- Witness of `usrcat_features_translation_invariant`: three heavy atoms at
`x = 0, 1, 4`, moved by `(1, 2, 3)`. -/
theorem usrcat_features_translation_invariant_witness :
    0 < 3 ∧
    ((![[0, 1, 2], [0], [], [1, 2], [2, 1, 0, 0]] : Fin 5 → List Nat) 0).Perm (List.range 3) ∧
    (∀ k, ∀ a ∈ (![[0, 1, 2], [0], [], [1, 2], [2, 1, 0, 0]] : Fin 5 → List Nat) k,
      a ∈ (![[0, 1, 2], [0], [], [1, 2], [2, 1, 0, 0]] : Fin 5 → List Nat) 0) ∧
    (∃ a ∈ (![[0, 1, 2], [0], [], [1, 2], [2, 1, 0, 0]] : Fin 5 → List Nat) 0,
      dist2 ((fun i : Nat => (⟨(i : ℚ) ^ 2, 0, 0⟩ : Point3D ℚ)) a) (centroid 3 (fun i : Nat => (⟨(i : ℚ) ^ 2, 0, 0⟩ : Point3D ℚ)) ((![[0, 1, 2], [0], [], [1, 2], [2, 1, 0, 0]] : Fin 5 → List Nat) 0)) < FLT_MAX) ∧
    ∃ v, v.length = 60 ∧
      usrcat_features (fun x : ℚ => x) (fun x : ℚ => x) (fun _ => 7) 3
        (translate ⟨1, 2, 3⟩ (fun i : Nat => (⟨(i : ℚ) ^ 2, 0, 0⟩ : Point3D ℚ))) ![[0, 1, 2], [0], [], [1, 2], [2, 1, 0, 0]] = some v ∧
      usrcat_features (fun x : ℚ => x) (fun x : ℚ => x) (fun _ => 7) 3
        (fun i : Nat => (⟨(i : ℚ) ^ 2, 0, 0⟩ : Point3D ℚ)) ![[0, 1, 2], [0], [], [1, 2], [2, 1, 0, 0]] = some v := by
  have h1 : ((![[0, 1, 2], [0], [], [1, 2], [2, 1, 0, 0]] : Fin 5 → List Nat) 0).Perm (List.range 3) := by
    decide
  have h2 : ∀ k, ∀ a ∈ (![[0, 1, 2], [0], [], [1, 2], [2, 1, 0, 0]] : Fin 5 → List Nat) k,
      a ∈ (![[0, 1, 2], [0], [], [1, 2], [2, 1, 0, 0]] : Fin 5 → List Nat) 0 := by
    decide
  have h3 : ∃ a ∈ (![[0, 1, 2], [0], [], [1, 2], [2, 1, 0, 0]] : Fin 5 → List Nat) 0,
      dist2 ((fun i : Nat => (⟨(i : ℚ) ^ 2, 0, 0⟩ : Point3D ℚ)) a) (centroid 3 (fun i : Nat => (⟨(i : ℚ) ^ 2, 0, 0⟩ : Point3D ℚ)) ((![[0, 1, 2], [0], [], [1, 2], [2, 1, 0, 0]] : Fin 5 → List Nat) 0)) < FLT_MAX := by
    refine ⟨1, by decide, ?_⟩
    simp [dist2, centroid, Point3D.add, Point3D.div, origin, FLT_MAX]
    norm_num
  exact ⟨by decide, h1, h2, h3,
    usrcat_features_translation_invariant (fun x : ℚ => x) (fun x : ℚ => x) (fun _ => 7)
      ⟨1, 2, 3⟩ 3 (fun i : Nat => (⟨(i : ℚ) ^ 2, 0, 0⟩ : Point3D ℚ)) ![[0, 1, 2], [0], [], [1, 2], [2, 1, 0, 0]] (by decide) h1 h2 h3⟩

end Theorems

section PipelineTheorems

/-- Claim C9 (counterexample). With a collaborator that embeds every SMILES string to four
conformers, a file holding a blacklisted record (`SMILES: Cq`) followed by the record
`Compound: B`, `SMILES: CCO` leaves every output file empty and leaves the lines of the
second record unread, while the same second record alone in a file is emitted. -/
theorem blacklisted_record_stops_scan_counterexample :
    (∃ w, process (fun _ => Embedding.confs () [0, 1, 2, 3]) 0 1
        [["Compound: A".toList, "SMILES: Cq".toList, "".toList,
          "Compound: B".toList, "SMILES: CCO".toList]] Worker.fresh = some w ∧
      w.m_Id_file.file = [] ∧ w.m_Smiles_file.file = [] ∧ w.m_Smi_file.file = [] ∧
      w.m_Conf_file.file = [] ∧ w.m_rfprop.file = [] ∧ w.m_riprop.file = [] ∧
      w.m_usrcatf64.file = [] ∧
      w.pdbqt_ifs.unread = ["Compound: B".toList, "SMILES: CCO".toList]) ∧
    (∃ w, process (fun _ => Embedding.confs () [0, 1, 2, 3]) 0 1
        [["Compound: B".toList, "SMILES: CCO".toList]] Worker.fresh = some w ∧
      w.m_Id_file.file = ["B".toList] ∧ w.m_Smiles_file.file = ["CCO".toList] ∧
      w.m_Smi_file.file = ["B".toList ++ Char.ofNat 9 :: "CCO".toList]) := by
  refine ⟨⟨_, rfl, ?_⟩, ⟨_, rfl, ?_⟩⟩
  · decide
  · decide

/-- Claim C9 (amended). When the `while` loop of `process` reads a SMILES line whose SMILES
string holds a blacklisted character, in any state of the worker and whatever the
collaborator does, the loop is left at once: no output stream changes (the record
produces no entry and raises no error) and every line after the one following the SMILES
line stays unread, so no later record of that file is processed. -/
theorem blacklisted_record_breaks {Mol : Type} (embed : List Char → Embedding Mol)
    (line : List Char) (rest : List (List Char)) (st : List Char × Worker Mol)
    (hs : find "SMILES:".toList line ≠ npos)
    (hb : blacklisted (stripWhiteSpaces (after_colon line)) = true) :
    scan embed (line :: rest) st
      = ((read_compound line st.1, st.2), rest.tail, !rest.isEmpty) := by
  apply scan_blacklisted embed line rest st hs
  cases rest with
  | nil => exact hb
  | cons next_line rest2 =>
    simp only [List.head?_cons]
    rw [read_smiles_some]
    exact blacklisted_append _ _ hb

/-- Witness of `blacklisted_record_breaks`: the line `SMILES: Cq` followed by an empty
line and a well-formed record. -/
theorem blacklisted_record_breaks_witness :
    find "SMILES:".toList "SMILES: Cq".toList ≠ npos ∧
    blacklisted (stripWhiteSpaces (after_colon "SMILES: Cq".toList)) = true ∧
    scan (fun _ => Embedding.confs () [0, 1, 2, 3])
        ("SMILES: Cq".toList :: ["".toList, "Compound: B".toList, "SMILES: CCO".toList])
        ("A".toList, Worker.fresh)
      = ((read_compound "SMILES: Cq".toList "A".toList, Worker.fresh),
          ["Compound: B".toList, "SMILES: CCO".toList], true) :=
  ⟨by decide, by decide,
   blacklisted_record_breaks (fun _ => Embedding.confs () [0, 1, 2, 3]) "SMILES: Cq".toList
     ["".toList, "Compound: B".toList, "SMILES: CCO".toList] ("A".toList, Worker.fresh)
     (by decide) (by decide)⟩

/-- Claim C10 (evaluation at the failing input). The test of line 108 compares `0` or `1`
with `npos` and is always true: the line after a SMILES line is appended to the SMILES
string whatever it holds, so `SMILES: CCO` followed by `REMARK  Name = x` yields the
SMILES string `CCOREMARK  Name = x` instead of `CCO`. -/
theorem smiles_continuation_always_appended :
    (∀ line next_line : List Char,
      read_smiles line (some next_line)
        = stripWhiteSpaces (after_colon line) ++ next_line) ∧
    find "REMARK".toList "REMARK  Name = x".toList ≠ npos ∧
    stripWhiteSpaces (after_colon "SMILES: CCO".toList) = "CCO".toList ∧
    read_smiles "SMILES: CCO".toList (some "REMARK  Name = x".toList)
      = "CCOREMARK  Name = x".toList :=
  ⟨read_smiles_some, by decide, by decide, by decide⟩

/-- Claim C11 (evaluation at the failing inputs). With a collaborator that embeds every
SMILES string to four conformers: a file with the two records `A` and `B` gives both
identifiers and eight descriptor vectors but only the four conformer entries of `A`
(`m_Conf_file` is closed after the first record and not opened again), and a chunk of two
files with one record each emits the record of the first file only (`pdbqt_ifs` is never
closed, so it cannot be opened on the second file). -/
theorem later_records_lose_entries :
    (∃ w, process (fun _ => Embedding.confs () [0, 1, 2, 3]) 0 1
        [["Compound: A".toList, "SMILES: CCO".toList, "".toList,
          "Compound: B".toList, "SMILES: CCN".toList]] Worker.fresh = some w ∧
      w.m_Id_file.file = ["A".toList, "B".toList] ∧
      w.m_Smiles_file.file = ["CCO".toList, "CCN".toList] ∧
      w.m_rfprop.file.length = 2 ∧ w.m_riprop.file.length = 2 ∧
      w.m_usrcatf64.file.length = 8 ∧
      w.m_Conf_file.file
        = [("A".toList, (), 0), ("A".toList, (), 1), ("A".toList, (), 2),
           ("A".toList, (), 3)]) ∧
    (∃ w, process (fun _ => Embedding.confs () [0, 1, 2, 3]) 0 2
        [["Compound: A".toList, "SMILES: CCO".toList],
         ["Compound: B".toList, "SMILES: CCN".toList]] Worker.fresh = some w ∧
      w.m_Id_file.file = ["A".toList] ∧
      w.m_Smiles_file.file = ["CCO".toList] ∧
      w.m_Conf_file.file.length = 4 ∧ w.m_usrcatf64.file.length = 4 ∧
      w.pdbqt_ifs.good = false) := by
  refine ⟨⟨_, rfl, ?_⟩, ⟨_, rfl, ?_⟩⟩
  · decide
  · decide

/-- Claim C12. When the embedding collaborator returns fewer than four conformers for a
record, the record leaves the worker, and with it every output stream and file, exactly
as it was: no entry is written. (With no conformer the loop is left, with one to three
conformers it goes on.) -/
theorem insufficient_embedding_writes_nothing {Mol : Type}
    (embed : List Char → Embedding Mol) (compound smiles : List Char) (w : Worker Mol)
    (mol : Mol) (confIds : List Nat)
    (he : embed smiles = Embedding.confs mol confIds) (hk : confIds.length < 4) :
    (record embed compound w smiles).state = w ∧
    record embed compound w smiles
      = if blacklisted smiles || confIds.isEmpty then Flow.brk w else Flow.next w := by
  have hne : confIds.length ≠ 4 := by omega
  by_cases hb : blacklisted smiles = true
  · simp [record, hb, Flow.state]
  · by_cases hempty : confIds.isEmpty = true
    · simp [record, hb, he, hempty, Flow.state]
    · simp [record, hb, he, hempty, hne, Flow.state]

/-- Witness of `insufficient_embedding_writes_nothing`: two conformers for `CCO`. -/
theorem insufficient_embedding_writes_nothing_witness :
    (fun _ : List Char => Embedding.confs () [0, 1]) "CCO".toList
      = Embedding.confs () [0, 1] ∧
    ([0, 1] : List Nat).length < 4 ∧
    (record (fun _ => Embedding.confs () [0, 1]) "MOL1".toList Worker.fresh
      "CCO".toList).state = Worker.fresh :=
  ⟨rfl, by decide,
   (insufficient_embedding_writes_nothing (fun _ => Embedding.confs () [0, 1])
     "MOL1".toList "CCO".toList Worker.fresh () [0, 1] rfl (by decide)).1⟩

/-- Claim C13 (counterexample). The collaborator raises a failure for the SMILES string
`XX` (first part) or returns no conformer for it (second part) and embeds every other
string to four conformers: a file holding the record `XX` followed by the well-formed
record `Compound: B`, `SMILES: CCO` leaves the output files empty and the lines of the
second record unread. -/
theorem failed_record_stops_scan_counterexample :
    (∃ w, process
        (fun s => if s = "XX".toList then Embedding.raised
          else Embedding.confs () [0, 1, 2, 3]) 0 1
        [["Compound: A".toList, "SMILES: XX".toList, "".toList,
          "Compound: B".toList, "SMILES: CCO".toList]] Worker.fresh = some w ∧
      w.m_Id_file.file = [] ∧ w.m_Smiles_file.file = [] ∧ w.m_Smi_file.file = [] ∧
      w.m_Conf_file.file = [] ∧ w.m_rfprop.file = [] ∧ w.m_riprop.file = [] ∧
      w.m_usrcatf64.file = [] ∧
      w.pdbqt_ifs.unread = ["Compound: B".toList, "SMILES: CCO".toList]) ∧
    (∃ w, process
        (fun s => if s = "XX".toList then Embedding.confs () []
          else Embedding.confs () [0, 1, 2, 3]) 0 1
        [["Compound: A".toList, "SMILES: XX".toList, "".toList,
          "Compound: B".toList, "SMILES: CCO".toList]] Worker.fresh = some w ∧
      w.m_Id_file.file = [] ∧ w.m_Smiles_file.file = [] ∧ w.m_Smi_file.file = [] ∧
      w.m_Conf_file.file = [] ∧ w.m_rfprop.file = [] ∧ w.m_riprop.file = [] ∧
      w.m_usrcatf64.file = [] ∧
      w.pdbqt_ifs.unread = ["Compound: B".toList, "SMILES: CCO".toList]) ∧
    (∃ w, process
        (fun s => if s = "XX".toList then Embedding.raised
          else Embedding.confs () [0, 1, 2, 3]) 0 1
        [["Compound: B".toList, "SMILES: CCO".toList]] Worker.fresh = some w ∧
      w.m_Id_file.file = ["B".toList] ∧ w.m_Smiles_file.file = ["CCO".toList]) := by
  refine ⟨⟨_, rfl, ?_⟩, ⟨_, rfl, ?_⟩, ⟨_, rfl, ?_⟩⟩
  · decide
  · decide
  · decide

/-- Claim C13 (amended). When the `while` loop of `process` reads a SMILES line for whose
SMILES string the collaborator raises a failure or returns no conformer, in any state of
the worker, the loop is left at once: no output stream changes (the record is skipped
without output) and every line after the one following the SMILES line stays unread, so
no later record of that file is processed. -/
theorem failed_record_breaks {Mol : Type} (embed : List Char → Embedding Mol)
    (line : List Char) (rest : List (List Char)) (st : List Char × Worker Mol)
    (hs : find "SMILES:".toList line ≠ npos)
    (hf : embed (read_smiles line rest.head?) = Embedding.raised ∨
      ∃ mol, embed (read_smiles line rest.head?) = Embedding.confs mol []) :
    scan embed (line :: rest) st
      = ((read_compound line st.1, st.2), rest.tail, !rest.isEmpty) :=
  scan_failed embed line rest st hs hf

/-- Witness of `failed_record_breaks`: the collaborator raises a failure on every SMILES
string. -/
theorem failed_record_breaks_witness :
    find "SMILES:".toList "SMILES: XX".toList ≠ npos ∧
    scan (fun _ => (Embedding.raised : Embedding Unit))
        ("SMILES: XX".toList :: ["".toList, "Compound: B".toList, "SMILES: CCO".toList])
        ("A".toList, Worker.fresh)
      = ((read_compound "SMILES: XX".toList "A".toList, Worker.fresh),
          ["Compound: B".toList, "SMILES: CCO".toList], true) :=
  ⟨by decide,
   failed_record_breaks (fun _ => (Embedding.raised : Embedding Unit)) "SMILES: XX".toList
     ["".toList, "Compound: B".toList, "SMILES: CCO".toList] ("A".toList, Worker.fresh)
     (by decide) (Or.inl rfl)⟩

/-- Claim C16 (counterexample). A run on a folder with a single `.pdbqt` file (fewer than
the 30 workers) and the right number of arguments ends with exit code `0`, after all 30
workers were started, each on the empty range `[0, 0)`; the file is not read and nothing
is written. -/
theorem too_few_files_exit_zero_counterexample :
    (main 5 (fun _ => Embedding.confs () [0, 1, 2, 3])
      [["Compound: MOL1".toList, "SMILES: CCO".toList]] Worker.fresh).1 = 0 ∧
    (main 5 (fun _ => Embedding.confs () [0, 1, 2, 3])
      [["Compound: MOL1".toList, "SMILES: CCO".toList]] Worker.fresh).2.1
      = List.replicate 30 (0, 0) ∧
    (∃ w, (main 5 (fun _ => Embedding.confs () [0, 1, 2, 3])
      [["Compound: MOL1".toList, "SMILES: CCO".toList]] Worker.fresh).2.2 = some w ∧
      w.m_Id_file.file = [] ∧ w.m_Conf_file.file = [] ∧ w.pdbqt_ifs.is_open = false) := by
  refine ⟨by decide, by decide, ⟨_, rfl, ?_⟩⟩
  decide

/-- Claim C16 (amended). Whenever fewer than 30 input files are found (and the argument
count is right), no error is reported: `main` has no test on the number of files, all 30
workers are started, the run completes and the exit code is `0`. -/
theorem too_few_files_no_error {Mol : Type} (embed : List Char → Embedding Mol)
    (pdbqts_vector : List (List (List Char))) (worker : Worker Mol)
    (h : pdbqts_vector.length < num_threads) :
    (main 5 embed pdbqts_vector worker).1 = 0 ∧
    (main 5 embed pdbqts_vector worker).2.1.length = num_threads ∧
    ∃ w, (main 5 embed pdbqts_vector worker).2.2 = some w := by
  have hc := chunks_small pdbqts_vector.length h
  have hf := empty_ranges_fold_two embed pdbqts_vector 28 worker
  have hm : main 5 embed pdbqts_vector worker
      = (0, List.replicate 30 (0, 0),
          some { worker with m_Conf_file := ⟨true, false, worker.m_Conf_file.file⟩ }) := by
    unfold main
    rw [if_neg (fun h5 => h5 rfl), hc]
    exact congrArg (fun x => ((0 : Nat), List.replicate 30 ((0 : Nat), (0 : Nat)), x)) hf
  rw [hm]
  exact ⟨rfl, rfl, _, rfl⟩

/-- Witness of `too_few_files_no_error`: one input file. -/
theorem too_few_files_no_error_witness :
    ([["Compound: MOL1".toList, "SMILES: CCO".toList]] : List (List (List Char))).length
      < num_threads ∧
    (main 5 (fun _ => Embedding.confs () [0, 1, 2, 3])
        [["Compound: MOL1".toList, "SMILES: CCO".toList]] Worker.fresh).1 = 0 ∧
    (main 5 (fun _ => Embedding.confs () [0, 1, 2, 3])
        [["Compound: MOL1".toList, "SMILES: CCO".toList]] Worker.fresh).2.1.length
      = num_threads ∧
    ∃ w, (main 5 (fun _ => Embedding.confs () [0, 1, 2, 3])
        [["Compound: MOL1".toList, "SMILES: CCO".toList]] Worker.fresh).2.2 = some w :=
  ⟨by decide,
   too_few_files_no_error (fun _ => Embedding.confs () [0, 1, 2, 3])
     [["Compound: MOL1".toList, "SMILES: CCO".toList]] Worker.fresh (by decide)⟩

end PipelineTheorems

end USRCAT
